import Mathlib

/-!
Verification of the `rehypeSpotlight` transform from `src/plugins/rehype-spotlight.mjs`.

The transform walks a hast tree (elements with a tag name, a class list and ordered
children; text nodes with a string value), finds `pre > code` blocks, removes the
`// spotlight-start` / `// spotlight-end` marker lines, and tags the surviving
`span.line` children with `spotlight` or `dim` classes.

We shallowly embed the node tree and both revisions of the transform:
`annotateCode` / `annotatePre` embed the current revision (the one with
trailing-blank cleanup, marker-only line removal and the non-breaking-space
placeholder); `oldAnnotateCode` embeds the earlier revision (classify first, strip
both markers from every line, delete any line left empty).
-/

/-- A hast node: either a text node with a literal string value, or an element with
a tag name, a class token list (the `properties.className` array; `[]` models an
absent class list) and an ordered list of children. -/
inductive Node where
  | text (value : String)
  | element (tagName : String) (className : List String) (children : List Node)

/-- Children of a node (elements only; text nodes have none). -/
def childrenOf : Node → List Node
  | .element _ _ cs => cs
  | .text _ => []

/-- Class list of a node (elements only). -/
def classNameOf : Node → List String
  | .element _ cls _ => cls
  | .text _ => []

/-- The start marker literal recognized by the transform. -/
def startMarker : String := "// spotlight-start"

/-- The end marker literal recognized by the transform. -/
def endMarker : String := "// spotlight-end"

/-- Whitespace as matched by the JavaScript `\s` class and `String.prototype.trim`
(restricted to the characters that can actually occur here: space, tab, newline,
carriage return, vertical tab, form feed and no-break space). -/
def isJsWS (c : Char) : Bool :=
  c == ' ' || c == '\t' || c == '\n' || c == '\r' ||
  c == '\x0b' || c == '\x0c' || c == '\u00A0'

/-- Does the character list start with the pattern? -/
def startsWithSeg : List Char → List Char → Bool
  | _, [] => true
  | [], _ :: _ => false
  | a :: s, b :: p => a == b && startsWithSeg s p

/-- Does the character list contain the pattern as a contiguous segment?
Embeds JavaScript `String.prototype.includes`. -/
def containsSeg : List Char → List Char → Bool
  | [], pat => pat.isEmpty
  | s@(_ :: rest), pat => startsWithSeg s pat || containsSeg rest pat

/-- `containsSub s pat` embeds `s.includes(pat)`. -/
def containsSub (s pat : String) : Bool := containsSeg s.data pat.data

/-- Trim on character lists: drop JS whitespace from both ends. -/
def jsTrimL (l : List Char) : List Char :=
  ((l.dropWhile isJsWS).reverse.dropWhile isJsWS).reverse

/-- `jsTrim s` embeds `s.trim()`. -/
def jsTrim (s : String) : String := String.mk (jsTrimL s.data)

/-- Remove the first occurrence of `pat` together with the whitespace run following
it. Embeds `v.replace(/pat\s*/, "")` (a non-global regex replace: leftmost match of
the pattern followed by greedy `\s*`). -/
def replaceSeg (pat : List Char) : List Char → List Char
  | [] => []
  | c :: rest =>
    if startsWithSeg (c :: rest) pat then ((c :: rest).drop pat.length).dropWhile isJsWS
    else c :: replaceSeg pat rest

/-- String-level wrapper for `replaceSeg`. -/
def replaceMarker (pat : String) (v : String) : String := String.mk (replaceSeg pat.data v.data)

mutual
/-- Concatenated text content of a node, in document order. Embeds the source's
`getText` (`node.value`, or the join of the children's texts). -/
def getText : Node → String
  | .text v => v
  | .element _ _ cs => getTextList cs
/-- `getText` folded over a child list (the `children.map(getText).join("")`). -/
def getTextList : List Node → String
  | [] => ""
  | c :: r => getText c ++ getTextList r
end

mutual
/-- Does any text value under the node contain a marker substring? Embeds the
source's `hasMarker`. -/
def hasMarker : Node → Bool
  | .text v => containsSub v startMarker || containsSub v endMarker
  | .element _ _ cs => hasMarkerList cs
/-- `hasMarker` over a child list (the `children.some(hasMarker)`). -/
def hasMarkerList : List Node → Bool
  | [] => false
  | c :: r => hasMarker c || hasMarkerList r
end

mutual
/-- Strip the first occurrence of `pat` (plus trailing whitespace) from every text
value under the node. Embeds the source's `transformNode` closures (one
instantiated with each marker). -/
def transformNode (pat : String) : Node → Node
  | .text v => .text (replaceMarker pat v)
  | .element t cls cs => .element t cls (transformNodeList pat cs)
/-- `transformNode` mapped over a child list. -/
def transformNodeList (pat : String) : List Node → List Node
  | [] => []
  | c :: r => transformNode pat c :: transformNodeList pat r
end

mutual
/-- All text values under a node, in document order. -/
def textValues : Node → List String
  | .text v => [v]
  | .element _ _ cs => textValuesList cs
/-- `textValues` over a child list. -/
def textValuesList : List Node → List String
  | [] => []
  | c :: r => textValues c ++ textValuesList r
end

/-- Is the node a line span (`n.type === "element" && n.tagName === "span" &&
n.properties.className?.includes("line")`)? -/
def isLineSpan : Node → Bool
  | .element t cls _ => t == "span" && cls.contains "line"
  | .text _ => false

/-- Is the node a `code`-tagged element (`n.tagName === "code"`)? -/
def isCodeTag : Node → Bool
  | .element t _ _ => t == "code"
  | .text _ => false

/-- Is the node a text node whose value is exactly one newline? -/
def isNlText : Node → Bool
  | .text v => v == "\n"
  | .element _ _ _ => false

/-- Append a class token (`span.properties.className = [...className, tok]`). -/
def addClass (tok : String) : Node → Node
  | .element t cls cs => .element t (cls ++ [tok]) cs
  | n => n

/-- Replace an element's content with a single no-break-space text node
(`span.children = [{ type: "text", value: "\u00A0" }]`). -/
def setNbspChildren : Node → Node
  | .element t cls _ => .element t cls [Node.text "\u00A0"]
  | n => n

/-- Scan the reversed child list for the last line span; if its text trims to
empty, drop it, together with the preceding sibling when that sibling is a text
node whose value is exactly `"\n"`. This is the `shouldRemove` marking of the
trailing synthetic blank line followed by the first `filter`. `dropNlHead` drops
a leading text node whose value is exactly one newline. -/
def dropNlHead : List Node → List Node
  | Node.text v :: r => if v == "\n" then r else Node.text v :: r
  | l => l

/-- See `dropNlHead`: the preceding-sibling removal step of the cleanup. -/
def removeTrailingRev : List Node → List Node
  | [] => []
  | c :: rest =>
    if isLineSpan c then
      if jsTrim (getText c) == "" then dropNlHead rest
      else c :: rest
    else c :: removeTrailingRev rest

/-- Trailing-blank cleanup on the code element's children (in document order). -/
def removeTrailingBlank (cs : List Node) : List Node := (removeTrailingRev cs.reverse).reverse

/-- The classification pass over the code element's children: one left-to-right
sweep carrying the `isSpotlighting` boolean. The `pendNl` flag models the
`shouldRemove` mark placed on the text node immediately following a marker-only
line when that node's value is exactly `"\n"` (the mark-then-filter of the source
becomes eager removal here; marked nodes are never read again before the filter).
Children that are not line spans pass through untouched. -/
def classifyLines : Bool → Bool → List Node → List Node
  | _, _, [] => []
  | st, pendNl, c :: rest =>
    if pendNl && isNlText c then
      classifyLines st false rest
    else if isLineSpan c then
      if jsTrim (getText c) == startMarker || jsTrim (getText c) == endMarker then
        classifyLines (containsSub (getText c) "spotlight-start") true rest
      else if containsSub (getText c) startMarker then
        transformNode startMarker c :: classifyLines true false rest
      else if containsSub (getText c) endMarker then
        transformNode endMarker c :: classifyLines false false rest
      else if st then
        (if jsTrim (getText c) == "" then setNbspChildren (addClass "spotlight" c)
         else addClass "spotlight" c) :: classifyLines st false rest
      else
        addClass "dim" c :: classifyLines st false rest
    else
      c :: classifyLines st false rest

/-- The current revision's per-code-element transform: trailing-blank cleanup
always runs; if some line span contains a marker (`hasSpotlights`, computed over
the line spans of the original child list), the code element gains the
`has-spotlights` class and the classification pass rewrites its children.
A removed trailing blank span stays in the source's captured `lineSpans` array,
but its text is all-whitespace, so it can neither carry a marker nor change the
`isSpotlighting` state, and its in-place mutations are invisible (it is detached);
scanning only the surviving children is therefore faithful. -/
def annotateCode : Node → Node
  | Node.element t cls cs =>
    if hasMarkerList (cs.filter isLineSpan) then
      Node.element t (cls ++ ["has-spotlights"]) (classifyLines false false (removeTrailingBlank cs))
    else
      Node.element t cls (removeTrailingBlank cs)
  | n => n

/-- Apply `annotateCode` to the first `code`-tagged child, in place
(`node.children.filter(n => n.tagName === "code")` then take the first). -/
def replaceFirstCode : List Node → List Node
  | [] => []
  | c :: rest => if isCodeTag c then annotateCode c :: rest else c :: replaceFirstCode rest

/-- The visitor's action on one element: a `pre` element has its first `code`
child rewritten; everything else is untouched. -/
def annotatePre : Node → Node
  | Node.element t cls cs =>
    if t == "pre" then Node.element t cls (replaceFirstCode cs) else Node.element t cls cs
  | n => n

mutual
/-- The earlier revision's `transformNode`: strip both markers from every text
value (start first, then end, each a first-occurrence replace), prune any text
child whose stripped value trims to empty (a text node whose value was already
`""` is skipped by the `if (node.value)` truthiness test and kept), prune any
element child left with no children, and report whether this node itself became
empty. -/
def oldTransformNode : Node → Node × Bool
  | .text v =>
    if v == "" then (Node.text v, false)
    else
      (Node.text (replaceMarker endMarker (replaceMarker startMarker v)),
       jsTrim (replaceMarker endMarker (replaceMarker startMarker v)) == "")
  | .element t cls cs =>
    (Node.element t cls (oldTransformList cs), (oldTransformList cs).isEmpty)
/-- The earlier revision's child filter: transform each child and drop those
reported empty. -/
def oldTransformList : List Node → List Node
  | [] => []
  | c :: r =>
    if (oldTransformNode c).2 then oldTransformList r
    else (oldTransformNode c).1 :: oldTransformList r
end

/-- Is the node an empty span element (the earlier revision's final filter:
`type === "element" && tagName === "span" && children.length === 0`)? -/
def isEmptySpan : Node → Bool
  | .element t _ cs => t == "span" && cs.isEmpty
  | .text _ => false

/-- The earlier revision's classification pass: classify first (a line containing
the start marker sets the state, a line containing the end marker clears it,
any other line gains `spotlight` or `dim`), then strip markers and prune emptied
descendants with `oldTransformNode`. -/
def oldClassifyLines : Bool → List Node → List Node
  | _, [] => []
  | st, c :: rest =>
    if isLineSpan c then
      if containsSub (getText c) startMarker then
        (oldTransformNode c).1 :: oldClassifyLines true rest
      else if containsSub (getText c) endMarker then
        (oldTransformNode c).1 :: oldClassifyLines false rest
      else if st then
        (oldTransformNode (addClass "spotlight" c)).1 :: oldClassifyLines st rest
      else
        (oldTransformNode (addClass "dim" c)).1 :: oldClassifyLines st rest
    else
      c :: oldClassifyLines st rest

/-- The earlier revision's per-code-element transform: no trailing-blank cleanup;
when markers are present, classify and strip, then drop every empty span from the
child list. -/
def oldAnnotateCode : Node → Node
  | Node.element t cls cs =>
    if hasMarkerList (cs.filter isLineSpan) then
      Node.element t (cls ++ ["has-spotlights"])
        ((oldClassifyLines false cs).filter (fun c => !(isEmptySpan c)))
    else
      Node.element t cls cs
  | n => n

/-- Does the child list end (ignoring trailing non-span nodes) in a line span
whose text trims to empty? This is the condition under which the trailing-blank
cleanup removes a node. -/
def lastSpanBlankRev : List Node → Bool
  | [] => false
  | c :: rest => if isLineSpan c then jsTrim (getText c) == "" else lastSpanBlankRev rest

/-- `lastSpanBlankRev` on the list in document order. -/
def lastSpanBlank (cs : List Node) : Bool := lastSpanBlankRev cs.reverse

/-- Drop a final text node whose value is exactly `"\n"`, if present. -/
def dropNlLast (cs : List Node) : List Node :=
  match cs.reverse with
  | Node.text v :: r => if v == "\n" then r.reverse else cs
  | _ => cs

/-- Number of state classes (`spotlight` or `dim`) on a node's class list. -/
def sdCount (n : Node) : Nat :=
  ((classNameOf n).filter (fun s => s == "spotlight" || s == "dim")).length

/-- The node carries neither `spotlight` nor `dim`. -/
def sdFree (n : Node) : Bool :=
  !((classNameOf n).contains "spotlight" || (classNameOf n).contains "dim")

/-- Every text value under the node is free of both marker substrings. -/
def markerFreeVals (n : Node) : Bool :=
  (textValues n).all (fun v => !(containsSub v startMarker) && !(containsSub v endMarker))

/-- Every text value under the node is free of both markers after the first
occurrence of `pat` (plus trailing whitespace) is stripped from it. -/
def cleanAfter (pat : String) (n : Node) : Bool :=
  (textValues n).all (fun v =>
    !(containsSub (replaceMarker pat v) startMarker) &&
    !(containsSub (replaceMarker pat v) endMarker))

/-- Per-child cleanliness for the amended marker-removal claim: marker-only lines
are unconstrained (they are removed); a marker-inline line must be left clean by
the one stripping pass its branch applies; any other child must carry no marker
in any text value. -/
def lineClean (n : Node) : Bool :=
  if isLineSpan n then
    if jsTrim (getText n) == startMarker || jsTrim (getText n) == endMarker then true
    else if containsSub (getText n) startMarker then cleanAfter startMarker n
    else if containsSub (getText n) endMarker then cleanAfter endMarker n
    else markerFreeVals n
  else markerFreeVals n

/-- The relation between a surviving line span `n` of the classification output
and its source line in `l`: either `n` is the marker-stripped image of a
marker-inline line (and then carries neither state class), or it is the
class-tagged image of a marker-free line (and then carries exactly one state
class). A marker-only line (trimmed text exactly a marker) is never a
pre-image: such lines are removed entirely. -/
def survivingImage (l : List Node) (n : Node) : Prop :=
  ∃ c, c ∈ l ∧ isLineSpan c = true ∧
    jsTrim (getText c) ≠ startMarker ∧ jsTrim (getText c) ≠ endMarker ∧
    ((containsSub (getText c) startMarker = true ∧
        n = transformNode startMarker c ∧ sdCount n = 0)
     ∨ (containsSub (getText c) startMarker = false ∧ containsSub (getText c) endMarker = true ∧
        n = transformNode endMarker c ∧ sdCount n = 0)
     ∨ (containsSub (getText c) startMarker = false ∧ containsSub (getText c) endMarker = false ∧
        (n = addClass "dim" c ∨
         n = if (jsTrim (getText c) == "") = true then setNbspChildren (addClass "spotlight" c)
             else addClass "spotlight" c) ∧ sdCount n = 1))

/-! ## Concrete code blocks used by individual claims -/

/-- A newline separator text node, as the highlighter emits between line spans. -/
def nlSep : Node := Node.text "\n"

/-- A one-text-node line span with the given text. -/
def mkLine (s : String) : Node := Node.element "span" ["line"] [Node.text s]

/-- Toggle shape with a whitespace-only final plain line: plain line, marker-only
start, two plain lines, marker-only end, blank line, each line followed by a
newline separator. -/
def toggleBlankBlock : Node := Node.element "code" []
  [mkLine "line A", nlSep, mkLine "// spotlight-start", nlSep, mkLine "line B", nlSep,
   mkLine "line C", nlSep, mkLine "// spotlight-end", nlSep, mkLine "   ", nlSep]

/-- Inline-marker example: `const x = 1; // spotlight-start` followed by a plain line. -/
def inlineBlock : Node := Node.element "code" []
  [mkLine "const x = 1; // spotlight-start", nlSep, mkLine "const y = 2;"]

/-- A line whose single text value holds the start marker twice. -/
def dupStartBlock : Node := Node.element "code" []
  [mkLine "// spotlight-start a // spotlight-start"]

/-- A block whose first line carries an inline start marker. -/
def inlineOnlyBlock : Node := Node.element "code" []
  [mkLine "x // spotlight-start", nlSep, mkLine "y"]

/-- A marker-free block ending in a blank line. -/
def plainBlankBlock : Node := Node.element "code" []
  [mkLine "a", nlSep, mkLine "  "]

/-- Another marker-free block ending in a blank (tab) line. -/
def plainTabBlock : Node := Node.element "code" ["language-ts"]
  [mkLine "b", nlSep, mkLine "\t"]

/-- A block where a spotlighted line becomes blank: inline start marker, an
all-whitespace line, then a plain line. -/
def revisionsBlock : Node := Node.element "code" []
  [mkLine "a // spotlight-start", nlSep, mkLine "  ", nlSep, mkLine "b"]

/-- A line whose two text values each hold a start marker (the second also an end
marker), followed by a plain line. -/
def twoTextBlock : Node := Node.element "code" []
  [Node.element "span" ["line"]
    [Node.text "a // spotlight-start ", Node.text "b // spotlight-start // spotlight-end"],
   nlSep, mkLine "c"]

/-! ## Helper lemmas: character segments -/

theorem startsWithSeg_take_split (a : List Char) : ∀ (b p : List Char),
    startsWithSeg (a ++ b) p = (startsWithSeg a (p.take a.length) && startsWithSeg b (p.drop a.length)) := by
  induction a with
  | nil => intro b p; simp [startsWithSeg]
  | cons x a ih =>
    intro b p
    cases p with
    | nil => simp [startsWithSeg]
    | cons q p' =>
      simp only [List.cons_append, startsWithSeg, List.length_cons, List.take_succ_cons,
        List.drop_succ_cons, List.append_eq, ih b p', Bool.and_assoc]

theorem startsWithSeg_refl (p : List Char) : startsWithSeg p p = true := by
  induction p with
  | nil => rfl
  | cons q p ih => simp [startsWithSeg, ih]

theorem startsWithSeg_append_self (p b : List Char) : startsWithSeg (p ++ b) p = true := by
  rw [startsWithSeg_take_split]
  simp [startsWithSeg_refl, startsWithSeg]

theorem startsWithSeg_append_of_le (a b p : List Char) (h : p.length ≤ a.length) :
    startsWithSeg (a ++ b) p = startsWithSeg a p := by
  rw [startsWithSeg_take_split, List.take_of_length_le h, List.drop_eq_nil_of_le h]
  simp [startsWithSeg]

theorem startsWithSeg_iff_append {s p : List Char} :
    startsWithSeg s p = true ↔ ∃ t, s = p ++ t := by
  induction p generalizing s with
  | nil => simp [startsWithSeg]
  | cons q p ih =>
    cases s with
    | nil => simp [startsWithSeg]
    | cons a s =>
      simp only [startsWithSeg, Bool.and_eq_true, beq_iff_eq, ih, List.cons_append]
      constructor
      · rintro ⟨rfl, t, rfl⟩; exact ⟨t, rfl⟩
      · rintro ⟨t, h⟩
        injection h with h1 h2
        exact ⟨h1, t, h2⟩

theorem containsSeg_cons_of {c : Char} {r p : List Char} (h : containsSeg r p = true) :
    containsSeg (c :: r) p = true := by
  simp [containsSeg, h]

theorem containsSeg_of_startsWithSeg {s p : List Char} (h : startsWithSeg s p = true) :
    containsSeg s p = true := by
  cases s with
  | nil => cases p with
    | nil => rfl
    | cons q p' => simp [startsWithSeg] at h
  | cons a s => simp [containsSeg, h]

theorem containsSeg_append_left (a : List Char) {s p : List Char} (h : containsSeg s p = true) :
    containsSeg (a ++ s) p = true := by
  induction a with
  | nil => exact h
  | cons x a ih => exact containsSeg_cons_of ih

theorem containsSeg_skip {a b : List Char} {p0 : Char} {pr : List Char}
    (hne : ∀ x ∈ a, (x == p0) = false)
    (h : containsSeg (a ++ b) (p0 :: pr) = true) : containsSeg b (p0 :: pr) = true := by
  induction a with
  | nil => exact h
  | cons x a ih =>
    rw [List.cons_append] at h
    simp only [containsSeg, Bool.or_eq_true] at h
    rcases h with h | h
    · simp only [startsWithSeg, hne x (by simp), Bool.false_and] at h
      simp at h
    · exact ih (fun y hy => hne y (by simp [hy])) h

theorem replaceSeg_skip {a b : List Char} {p0 : Char} {pr : List Char}
    (hne : ∀ x ∈ a, (x == p0) = false) :
    replaceSeg (p0 :: pr) (a ++ b) = a ++ replaceSeg (p0 :: pr) b := by
  induction a with
  | nil => rfl
  | cons x a ih =>
    rw [List.cons_append, replaceSeg]
    simp only [startsWithSeg, hne x (by simp), Bool.false_and, if_neg Bool.false_ne_true]
    rw [ih (fun y hy => hne y (by simp [hy])), List.cons_append]

theorem containsSeg_dropWhile {t : List Char} {p0 : Char} {pr : List Char}
    (hp : isJsWS p0 = false) (h : containsSeg t (p0 :: pr) = true) :
    containsSeg (t.dropWhile isJsWS) (p0 :: pr) = true := by
  induction t with
  | nil => simp [containsSeg] at h
  | cons x t ih =>
    by_cases hx : isJsWS x = true
    · rw [List.dropWhile_cons_of_pos hx]
      simp only [containsSeg, Bool.or_eq_true] at h
      rcases h with h | h
      · exfalso
        simp only [startsWithSeg, Bool.and_eq_true, beq_iff_eq] at h
        rw [h.1] at hx
        rw [hx] at hp
        exact Bool.noConfusion hp
      · exact ih h
    · rw [List.dropWhile_cons_of_neg hx]
      exact h

theorem containsSeg_head_mem {s : List Char} {p0 : Char} {pr : List Char}
    (h : containsSeg s (p0 :: pr) = true) : p0 ∈ s := by
  induction s with
  | nil => simp [containsSeg] at h
  | cons a s ih =>
    simp only [containsSeg, Bool.or_eq_true] at h
    rcases h with h | h
    · simp only [startsWithSeg, Bool.and_eq_true, beq_iff_eq] at h
      simp [h.1]
    · simp [ih h]

theorem startsWithSeg_append_mono {s p : List Char} (b : List Char)
    (h : startsWithSeg s p = true) : startsWithSeg (s ++ b) p = true := by
  obtain ⟨t, rfl⟩ := startsWithSeg_iff_append.mp h
  rw [List.append_assoc]
  exact startsWithSeg_append_self p (t ++ b)

theorem containsSeg_append_right {s p : List Char} (b : List Char)
    (h : containsSeg s p = true) : containsSeg (s ++ b) p = true := by
  induction s with
  | nil =>
    simp only [containsSeg] at h
    rw [List.isEmpty_iff] at h
    subst h
    cases b with
    | nil => rfl
    | cons x b => simp [containsSeg, startsWithSeg]
  | cons a s ih =>
    simp only [containsSeg, Bool.or_eq_true] at h ⊢
    rcases h with h | h
    · exact Or.inl (startsWithSeg_append_mono b h)
    · exact Or.inr (ih h)

theorem dropWhile_eq_nil_all {p : α → Bool} {l : List α} (h : l.dropWhile p = []) :
    ∀ x ∈ l, p x = true := by
  rw [List.dropWhile_eq_nil_iff] at h
  exact h

theorem containsSeg_cons_elim {x : Char} {s p : List Char} (h : containsSeg (x :: s) p = true) :
    startsWithSeg (x :: s) p = true ∨ containsSeg s p = true := by
  simpa [containsSeg, Bool.or_eq_true] using h

theorem containsSeg_skip_head {a b p : List Char} (hp : p ≠ [])
    (hne : ∀ x ∈ a, (x == p.headD ' ') = false)
    (h : containsSeg (a ++ b) p = true) : containsSeg b p = true := by
  cases p with
  | nil => exact absurd rfl hp
  | cons p0 pr => exact containsSeg_skip (by simpa using hne) h

theorem containsSeg_dropWhile_head {t p : List Char} (hp : p ≠ [])
    (hw : isJsWS (p.headD ' ') = false)
    (h : containsSeg t p = true) : containsSeg (t.dropWhile isJsWS) p = true := by
  cases p with
  | nil => exact absurd rfl hp
  | cons p0 pr => exact containsSeg_dropWhile (by simpa using hw) h

theorem replaceSeg_skip_head {a b p : List Char} (hp : p ≠ [])
    (hne : ∀ x ∈ a, (x == p.headD ' ') = false) :
    replaceSeg p (a ++ b) = a ++ replaceSeg p b := by
  cases p with
  | nil => exact absurd rfl hp
  | cons p0 pr => exact replaceSeg_skip (by simpa using hne)

theorem endSurvivesSeg (l : List Char)
    (h : containsSeg l ("// spotlight-end".data) = true) :
    containsSeg (replaceSeg ("// spotlight-start".data) l) ("// spotlight-end".data) = true := by
  induction l with
  | nil => exact absurd h (by decide)
  | cons c r ih =>
    by_cases hs : startsWithSeg (c :: r) ("// spotlight-start".data) = true
    · rw [replaceSeg, if_pos hs]
      obtain ⟨t, ht⟩ := startsWithSeg_iff_append.mp hs
      rw [ht, List.drop_left]
      rw [ht] at h
      have h1 : containsSeg (("// spotlight-start".data).drop 1 ++ t) ("// spotlight-end".data) = true := by
        rcases containsSeg_cons_elim
            (show containsSeg ('/' :: (("// spotlight-start".data).drop 1 ++ t)) ("// spotlight-end".data) = true from h) with
          hsw | hc
        · exfalso
          have hx : startsWithSeg ("// spotlight-start".data) ("// spotlight-end".data) = true := by
            rw [← startsWithSeg_append_of_le ("// spotlight-start".data) t ("// spotlight-end".data) (by decide)]
            exact hsw
          exact absurd hx (by decide)
        · exact hc
      have h2 : containsSeg (("// spotlight-start".data).drop 2 ++ t) ("// spotlight-end".data) = true := by
        rcases containsSeg_cons_elim
            (show containsSeg ('/' :: (("// spotlight-start".data).drop 2 ++ t)) ("// spotlight-end".data) = true from h1) with
          hsw | hc
        · exfalso
          have hx : startsWithSeg (("// spotlight-start".data).drop 1) ("// spotlight-end".data) = true := by
            rw [← startsWithSeg_append_of_le (("// spotlight-start".data).drop 1) t ("// spotlight-end".data) (by decide)]
            exact hsw
          exact absurd hx (by decide)
        · exact hc
      have h3 : containsSeg t ("// spotlight-end".data) = true :=
        containsSeg_skip_head (by decide) (by decide) h2
      exact containsSeg_dropWhile_head (by decide) (by decide) h3
    · rw [replaceSeg, if_neg hs]
      rcases containsSeg_cons_elim h with hsw | hc
      · obtain ⟨t, ht⟩ := startsWithSeg_iff_append.mp hsw
        have hcr : c = '/' ∧ r = ("// spotlight-end".data).drop 1 ++ t := by
          have h0 : c :: r = '/' :: (("// spotlight-end".data).drop 1 ++ t) := ht
          rw [List.cons.injEq] at h0
          exact h0
        have hr : r = ("// spotlight-end".data).drop 1 ++ t := hcr.2
        have hc' : c = '/' := hcr.1
        have hcond : startsWithSeg (("// spotlight-end".data).drop 1 ++ t) ("// spotlight-start".data) = false := by
          rw [startsWithSeg_take_split]
          rw [show startsWithSeg (("// spotlight-end".data).drop 1)
              (("// spotlight-start".data).take (("// spotlight-end".data).drop 1).length) = false from by decide]
          rw [Bool.false_and]
        have hrepl : replaceSeg ("// spotlight-start".data) r
            = ("// spotlight-end".data).drop 1 ++ replaceSeg ("// spotlight-start".data) t := by
          rw [hr]
          rw [show (("// spotlight-end".data).drop 1 ++ t : List Char)
              = '/' :: (("// spotlight-end".data).drop 2 ++ t) from rfl]
          rw [replaceSeg]
          rw [if_neg (by
            rw [show ('/' :: (("// spotlight-end".data).drop 2 ++ t) : List Char)
                = ("// spotlight-end".data).drop 1 ++ t from rfl]
            rw [hcond]
            exact Bool.false_ne_true)]
          rw [replaceSeg_skip_head (by decide) (by decide)]
          rfl
        rw [hrepl, hc']
        apply containsSeg_of_startsWithSeg
        rw [show ('/' :: (("// spotlight-end".data).drop 1 ++ replaceSeg ("// spotlight-start".data) t) : List Char)
            = "// spotlight-end".data ++ replaceSeg ("// spotlight-start".data) t from rfl]
        exact startsWithSeg_append_self _ _
      · exact containsSeg_cons_of (ih hc)

/-! ## Helper lemmas: trees -/

mutual
theorem textValues_transformNode (pat : String) :
    ∀ n, textValues (transformNode pat n) = (textValues n).map (replaceMarker pat)
  | .text _ => rfl
  | .element _ _ cs => textValuesList_transformNodeList pat cs
theorem textValuesList_transformNodeList (pat : String) :
    ∀ l, textValuesList (transformNodeList pat l) = (textValuesList l).map (replaceMarker pat)
  | [] => rfl
  | c :: r => by
    rw [transformNodeList, textValuesList, textValues_transformNode pat c,
      textValuesList_transformNodeList pat r, textValuesList, List.map_append]
end

mutual
theorem hasMarker_values :
    ∀ n, hasMarker n = (textValues n).any (fun v => containsSub v startMarker || containsSub v endMarker)
  | .text v => by simp [hasMarker, textValues]
  | .element t cls cs => hasMarkerList_values cs
theorem hasMarkerList_values :
    ∀ l, hasMarkerList l = (textValuesList l).any (fun v => containsSub v startMarker || containsSub v endMarker)
  | [] => rfl
  | c :: r => by
    rw [hasMarkerList, textValuesList, List.any_append, hasMarker_values c, hasMarkerList_values r]
end

mutual
theorem textValues_within :
    ∀ n, ∀ v ∈ textValues n, ∃ a b, (getText n).data = a ++ v.data ++ b
  | .text w => by
    intro v hv
    simp only [textValues, List.mem_singleton] at hv
    exact ⟨[], [], by simp [getText, hv]⟩
  | .element t cls cs => textValuesList_within cs
theorem textValuesList_within :
    ∀ l, ∀ v ∈ textValuesList l, ∃ a b, (getTextList l).data = a ++ v.data ++ b
  | [] => by intro v hv; simp [textValuesList] at hv
  | c :: r => by
    intro v hv
    rw [textValuesList, List.mem_append] at hv
    rcases hv with hv | hv
    · obtain ⟨a, b, hab⟩ := textValues_within c v hv
      refine ⟨a, b ++ (getTextList r).data, ?_⟩
      rw [getTextList, String.data_append, hab]
      simp
    · obtain ⟨a, b, hab⟩ := textValuesList_within r v hv
      refine ⟨(getText c).data ++ a, b, ?_⟩
      rw [getTextList, String.data_append, hab]
      simp
end

theorem mem_textValuesList {v : String} :
    ∀ {l : List Node}, v ∈ textValuesList l ↔ ∃ c ∈ l, v ∈ textValues c := by
  intro l
  induction l with
  | nil => simp [textValuesList]
  | cons c r ih =>
    rw [textValuesList, List.mem_append, ih]
    constructor
    · rintro (h | ⟨d, hd, hv⟩)
      · exact ⟨c, by simp, h⟩
      · exact ⟨d, by simp [hd], hv⟩
    · rintro ⟨d, hd, hv⟩
      rcases List.mem_cons.mp hd with rfl | hd
      · exact Or.inl hv
      · exact Or.inr ⟨d, hd, hv⟩

theorem hasMarkerList_exists {l : List Node} :
    hasMarkerList l = true ↔ ∃ c ∈ l, hasMarker c = true := by
  induction l with
  | nil => simp [hasMarkerList]
  | cons c r ih =>
    rw [hasMarkerList, Bool.or_eq_true, ih]
    constructor
    · rintro (h | ⟨d, hd, hm⟩)
      · exact ⟨c, by simp, h⟩
      · exact ⟨d, by simp [hd], hm⟩
    · rintro ⟨d, hd, hm⟩
      rcases List.mem_cons.mp hd with rfl | hd
      · exact Or.inl hm
      · exact Or.inr ⟨d, hd, hm⟩

theorem jsTrimL_nil_all_ws {l : List Char} (h : jsTrimL l = []) :
    ∀ c ∈ l, isJsWS c = true := by
  rw [jsTrimL, List.reverse_eq_nil_iff, List.dropWhile_eq_nil_iff] at h
  intro c hc
  rcases List.mem_append.mp ((List.takeWhile_append_dropWhile (p := isJsWS) (l := l)) ▸ hc) with h1 | h1
  · exact List.mem_takeWhile_imp h1
  · exact h (c) (by simpa using h1)

theorem jsTrim_empty_all_ws {s : String} (h : jsTrim s = "") :
    ∀ c ∈ s.data, isJsWS c = true := by
  apply jsTrimL_nil_all_ws
  have : (jsTrim s).data = ("" : String).data := by rw [h]
  simpa [jsTrim] using this

theorem containsSub_of_within {s v pat : String} {a b : List Char}
    (hab : s.data = a ++ v.data ++ b) (h : containsSub v pat = true) :
    containsSub s pat = true := by
  rw [containsSub] at h ⊢
  rw [hab, List.append_assoc]
  exact containsSeg_append_left a (containsSeg_append_right b h)

theorem hasMarker_false_of_blank {n : Node} (h : jsTrim (getText n) = "") :
    hasMarker n = false := by
  rw [hasMarker_values]
  rw [List.any_eq_false]
  intro v hv
  obtain ⟨a, b, hab⟩ := textValues_within n v hv
  have hws := jsTrim_empty_all_ws h
  intro hcon
  rw [Bool.or_eq_true] at hcon
  have hmem : '/' ∈ (getText n).data := by
    rcases hcon with hcon | hcon
    · have := containsSub_of_within hab hcon
      rw [containsSub] at this
      exact containsSeg_head_mem this
    · have := containsSub_of_within hab hcon
      rw [containsSub] at this
      exact containsSeg_head_mem this
  exact absurd (hws '/' hmem) (by decide)

/-! ## Helper lemmas: trailing-blank cleanup -/

theorem dropNlHead_sublist : ∀ l : List Node, List.Sublist (dropNlHead l) l
  | [] => List.Sublist.refl []
  | Node.text v :: r => by
    rw [dropNlHead]
    by_cases h : (v == "\n") = true
    · rw [if_pos h]
      exact List.sublist_cons_self _ _
    · rw [if_neg h]
  | Node.element t cls cs :: r => List.Sublist.refl _

theorem removeTrailingRev_sublist : ∀ l : List Node, List.Sublist (removeTrailingRev l) l
  | [] => List.Sublist.refl []
  | c :: rest => by
    rw [removeTrailingRev]
    by_cases h1 : isLineSpan c = true
    · rw [if_pos h1]
      by_cases h2 : (jsTrim (getText c) == "") = true
      · rw [if_pos h2]
        exact (dropNlHead_sublist rest).trans (List.sublist_cons_self _ _)
      · rw [if_neg h2]
    · rw [if_neg h1]
      exact List.Sublist.cons₂ c (removeTrailingRev_sublist rest)

theorem removeTrailingBlank_sublist (cs : List Node) : List.Sublist (removeTrailingBlank cs) cs := by
  rw [removeTrailingBlank]
  have := (removeTrailingRev_sublist cs.reverse).reverse
  rwa [List.reverse_reverse] at this

theorem removeTrailingRev_id : ∀ l : List Node, lastSpanBlankRev l = false → removeTrailingRev l = l
  | [] => fun _ => rfl
  | c :: rest => by
    intro h
    rw [lastSpanBlankRev] at h
    rw [removeTrailingRev]
    by_cases h1 : isLineSpan c = true
    · rw [if_pos h1]
      rw [if_pos h1] at h
      rw [if_neg (by rw [h]; exact Bool.false_ne_true)]
    · rw [if_neg h1]
      rw [if_neg h1] at h
      rw [removeTrailingRev_id rest h]

theorem removeTrailingBlank_id {cs : List Node} (h : lastSpanBlank cs = false) :
    removeTrailingBlank cs = cs := by
  rw [removeTrailingBlank, removeTrailingRev_id cs.reverse h, List.reverse_reverse]

theorem removeTrailingRev_append_nospan {a : List Node} (l : List Node)
    (h : ∀ c ∈ a, isLineSpan c = false) :
    removeTrailingRev (a ++ l) = a ++ removeTrailingRev l := by
  induction a with
  | nil => rfl
  | cons c r ih =>
    rw [List.cons_append, removeTrailingRev,
      if_neg (by rw [h c (by simp)]; exact Bool.false_ne_true),
      ih (fun d hd => h d (by simp [hd])), List.cons_append]

theorem lastSpanBlankRev_append_nospan {a : List Node} (l : List Node)
    (h : ∀ c ∈ a, isLineSpan c = false) :
    lastSpanBlankRev (a ++ l) = lastSpanBlankRev l := by
  induction a with
  | nil => rfl
  | cons c r ih =>
    rw [List.cons_append, lastSpanBlankRev,
      if_neg (by rw [h c (by simp)]; exact Bool.false_ne_true),
      ih (fun d hd => h d (by simp [hd]))]

theorem filter_isLineSpan_eq_nil {l : List Node} :
    l.filter isLineSpan = [] ↔ ∀ c ∈ l, isLineSpan c = false := by
  rw [List.filter_eq_nil_iff]
  constructor
  · intro h c hc
    exact Bool.eq_false_iff.mpr (h c hc)
  · intro h c hc
    rw [h c hc]
    exact Bool.false_ne_true

/-! ## Claims -/

/-! ## Helper lemmas: trim decomposition and classification steps -/

theorem jsTrim_decomp (l : List Char) :
    l = l.takeWhile isJsWS ++ jsTrimL l ++ ((l.dropWhile isJsWS).reverse.takeWhile isJsWS).reverse := by
  conv_lhs => rw [← List.takeWhile_append_dropWhile isJsWS l]
  rw [jsTrimL, List.append_assoc]
  congr 1
  conv_lhs => rw [← List.reverse_reverse (l.dropWhile isJsWS),
    ← List.takeWhile_append_dropWhile isJsWS (l.dropWhile isJsWS).reverse]
  rw [List.reverse_append]

theorem containsSub_of_jsTrim {s q pat : String} (h : jsTrim s = q)
    (hc : containsSub q pat = true) : containsSub s pat = true := by
  have hq : jsTrimL s.data = q.data := by
    have h2 : (jsTrim s).data = q.data := by rw [h]
    simpa [jsTrim] using h2
  rw [containsSub] at hc ⊢
  rw [jsTrim_decomp s.data, hq]
  exact containsSeg_append_right _ (containsSeg_append_left _ hc)

theorem jsTrim_ne_of_not_contains {s q : String}
    (hqq : containsSub q q = true) (h : containsSub s q = false) : jsTrim s ≠ q :=
  fun hk => by rw [containsSub_of_jsTrim hk hqq] at h; exact Bool.noConfusion h

theorem classify_pass_nl (st : Bool) (rest : List Node) :
    classifyLines st false (nlSep :: rest) = nlSep :: classifyLines st false rest := by
  rw [classifyLines, if_neg (by simp), if_neg (by decide)]

theorem classify_drop_nl (st : Bool) (rest : List Node) :
    classifyLines st true (nlSep :: rest) = classifyLines st false rest := by
  rw [classifyLines, if_pos (by decide)]

theorem classify_marker_only (st : Bool) (c : Node) (rest : List Node)
    (hline : isLineSpan c = true)
    (ht : (jsTrim (getText c) == startMarker || jsTrim (getText c) == endMarker) = true) :
    classifyLines st false (c :: rest) =
      classifyLines (containsSub (getText c) "spotlight-start") true rest := by
  rw [classifyLines, if_neg (by simp), if_pos hline, if_pos ht]

theorem classify_plain_dim (c : Node) (rest : List Node)
    (hline : isLineSpan c = true)
    (hns : containsSub (getText c) startMarker = false)
    (hne : containsSub (getText c) endMarker = false) :
    classifyLines false false (c :: rest) = addClass "dim" c :: classifyLines false false rest := by
  have hm1 : jsTrim (getText c) ≠ startMarker := jsTrim_ne_of_not_contains (by decide) hns
  have hm2 : jsTrim (getText c) ≠ endMarker := jsTrim_ne_of_not_contains (by decide) hne
  rw [classifyLines, if_neg (by simp), if_pos hline]
  rw [if_neg (by
    intro hk
    rw [Bool.or_eq_true] at hk
    rcases hk with hk | hk
    · exact hm1 (by simpa using hk)
    · exact hm2 (by simpa using hk))]
  rw [hns, if_neg Bool.false_ne_true, hne, if_neg Bool.false_ne_true, if_neg (by simp)]

theorem classify_plain_spot (c : Node) (rest : List Node)
    (hline : isLineSpan c = true)
    (hns : containsSub (getText c) startMarker = false)
    (hne : containsSub (getText c) endMarker = false) :
    classifyLines true false (c :: rest) =
      (if (jsTrim (getText c) == "") = true then setNbspChildren (addClass "spotlight" c)
       else addClass "spotlight" c) :: classifyLines true false rest := by
  have hm1 : jsTrim (getText c) ≠ startMarker := jsTrim_ne_of_not_contains (by decide) hns
  have hm2 : jsTrim (getText c) ≠ endMarker := jsTrim_ne_of_not_contains (by decide) hne
  rw [classifyLines, if_neg (by simp), if_pos hline]
  rw [if_neg (by
    intro hk
    rw [Bool.or_eq_true] at hk
    rcases hk with hk | hk
    · exact hm1 (by simpa using hk)
    · exact hm2 (by simpa using hk))]
  rw [hns, if_neg Bool.false_ne_true, hne, if_neg Bool.false_ne_true, if_pos rfl]

/-- C1 counterexample: in the claimed block shape with the plain line D
whitespace-only, the transform removes D and its separator instead of dimming
it — the output has six children and is not the claimed tree ending in a
dimmed D. -/
theorem toggle_blank_last_line :
    annotateCode toggleBlankBlock = Node.element "code" ["has-spotlights"]
      [Node.element "span" ["line", "dim"] [Node.text "line A"], nlSep,
       Node.element "span" ["line", "spotlight"] [Node.text "line B"], nlSep,
       Node.element "span" ["line", "spotlight"] [Node.text "line C"], nlSep]
    ∧ annotateCode toggleBlankBlock ≠ Node.element "code" ["has-spotlights"]
      [Node.element "span" ["line", "dim"] [Node.text "line A"], nlSep,
       Node.element "span" ["line", "spotlight"] [Node.text "line B"], nlSep,
       Node.element "span" ["line", "spotlight"] [Node.text "line C"], nlSep,
       Node.element "span" ["line", "dim"] [Node.text "   "], nlSep] :=
  ⟨rfl, by
    intro h
    have h2 := congrArg (fun n => (childrenOf n).length) h
    exact absurd h2 (by decide)⟩

/-- C1 (amended): for every code block whose line nodes are, in order, a plain
line A, the marker-only `// spotlight-start` line, plain lines B and C, the
marker-only `// spotlight-end` line, and a plain line D whose text is not
empty or whitespace-only (a blank D would instead be removed by the
trailing-blank cleanup), each line followed by a newline text separator, the
transform removes the two marker lines and their separators, adds
`has-spotlights`, and leaves A dimmed, B and C spotlighted, and D dimmed, in
order (a blank B or C keeps the `spotlight` class with its content replaced by
the no-break-space placeholder). -/
theorem toggle_correct_general (cls : List String) (A B C D : Node)
    (hA : isLineSpan A = true) (hB : isLineSpan B = true)
    (hC : isLineSpan C = true) (hD : isLineSpan D = true)
    (hAns : containsSub (getText A) startMarker = false)
    (hAne : containsSub (getText A) endMarker = false)
    (hBns : containsSub (getText B) startMarker = false)
    (hBne : containsSub (getText B) endMarker = false)
    (hCns : containsSub (getText C) startMarker = false)
    (hCne : containsSub (getText C) endMarker = false)
    (hDns : containsSub (getText D) startMarker = false)
    (hDne : containsSub (getText D) endMarker = false)
    (hDnb : jsTrim (getText D) ≠ "") :
    annotateCode (Node.element "code" cls
        [A, nlSep, mkLine "// spotlight-start", nlSep, B, nlSep, C, nlSep,
         mkLine "// spotlight-end", nlSep, D, nlSep]) =
      Node.element "code" (cls ++ ["has-spotlights"])
        [addClass "dim" A, nlSep,
         (if (jsTrim (getText B) == "") = true then setNbspChildren (addClass "spotlight" B)
          else addClass "spotlight" B), nlSep,
         (if (jsTrim (getText C) == "") = true then setNbspChildren (addClass "spotlight" C)
          else addClass "spotlight" C), nlSep,
         addClass "dim" D, nlSep] := by
  have hlast : lastSpanBlank
      [A, nlSep, mkLine "// spotlight-start", nlSep, B, nlSep, C, nlSep,
       mkLine "// spotlight-end", nlSep, D, nlSep] = false := by
    show lastSpanBlankRev
      [nlSep, D, nlSep, mkLine "// spotlight-end", nlSep, C, nlSep, B, nlSep,
       mkLine "// spotlight-start", nlSep, A] = false
    rw [lastSpanBlankRev, if_neg (by decide), lastSpanBlankRev, if_pos hD]
    exact Bool.eq_false_iff.mpr (fun hk => hDnb (by simpa using hk))
  have hfil : List.filter isLineSpan
      [A, nlSep, mkLine "// spotlight-start", nlSep, B, nlSep, C, nlSep,
       mkLine "// spotlight-end", nlSep, D, nlSep] =
      [A, mkLine "// spotlight-start", B, C, mkLine "// spotlight-end", D] := by
    rw [List.filter_cons_of_pos hA, List.filter_cons_of_neg (by decide),
      List.filter_cons_of_pos (by decide : isLineSpan (mkLine "// spotlight-start") = true),
      List.filter_cons_of_neg (by decide), List.filter_cons_of_pos hB,
      List.filter_cons_of_neg (by decide), List.filter_cons_of_pos hC,
      List.filter_cons_of_neg (by decide),
      List.filter_cons_of_pos (by decide : isLineSpan (mkLine "// spotlight-end") = true),
      List.filter_cons_of_neg (by decide), List.filter_cons_of_pos hD,
      List.filter_cons_of_neg (by decide), List.filter_nil]
  have hmk : hasMarkerList
      (List.filter isLineSpan
        [A, nlSep, mkLine "// spotlight-start", nlSep, B, nlSep, C, nlSep,
         mkLine "// spotlight-end", nlSep, D, nlSep]) = true := by
    rw [hfil, hasMarkerList, hasMarkerList,
      show hasMarker (mkLine "// spotlight-start") = true from rfl]
    simp
  rw [annotateCode, if_pos hmk, removeTrailingBlank_id hlast]
  rw [classify_plain_dim A _ hA hAns hAne, classify_pass_nl,
    classify_marker_only false (mkLine "// spotlight-start") _ rfl (by decide),
    show containsSub (getText (mkLine "// spotlight-start")) "spotlight-start" = true from rfl,
    classify_drop_nl,
    classify_plain_spot B _ hB hBns hBne, classify_pass_nl,
    classify_plain_spot C _ hC hCns hCne, classify_pass_nl,
    classify_marker_only true (mkLine "// spotlight-end") _ rfl (by decide),
    show containsSub (getText (mkLine "// spotlight-end")) "spotlight-start" = false from rfl,
    classify_drop_nl,
    classify_plain_dim D _ hD hDns hDne, classify_pass_nl, classifyLines]

/-- C1 witness: the toggle shape at concrete plain lines produces exactly the
dim/spotlight/spotlight/dim output with the marker lines and separators gone. -/
theorem toggle_correct_general_witness :
    annotateCode (Node.element "code" []
        [mkLine "line A", nlSep, mkLine "// spotlight-start", nlSep, mkLine "line B", nlSep,
         mkLine "line C", nlSep, mkLine "// spotlight-end", nlSep, mkLine "line D", nlSep]) =
      Node.element "code" ["has-spotlights"]
        [Node.element "span" ["line", "dim"] [Node.text "line A"], nlSep,
         Node.element "span" ["line", "spotlight"] [Node.text "line B"], nlSep,
         Node.element "span" ["line", "spotlight"] [Node.text "line C"], nlSep,
         Node.element "span" ["line", "dim"] [Node.text "line D"], nlSep] :=
  toggle_correct_general [] (mkLine "line A") (mkLine "line B") (mkLine "line C") (mkLine "line D")
    rfl rfl rfl rfl rfl rfl rfl rfl rfl rfl rfl rfl (by decide)

/-- C2 counterexample: on a line whose text value holds the start marker twice,
only the first occurrence is stripped, so a text value containing
`// spotlight-start` survives into the output, contradicting the claim that no
output text value contains a marker substring. -/
theorem marker_survives_dup_start :
    (textValues (annotateCode dupStartBlock)).any (fun v => containsSub v startMarker) = true := rfl

/-- C3 counterexample: in a block tagged `has-spotlights`, the surviving line
that carried an inline start marker ends up with class list `["line"]`: it is a
surviving, non-marker-only line carrying neither `spotlight` nor `dim`. -/
theorem inline_line_unclassified :
    (classNameOf (annotateCode inlineOnlyBlock)).contains "has-spotlights" = true ∧
    isLineSpan ((childrenOf (annotateCode inlineOnlyBlock)).headD (Node.text "")) = true ∧
    (classNameOf ((childrenOf (annotateCode inlineOnlyBlock)).headD (Node.text ""))).contains "spotlight" = false ∧
    (classNameOf ((childrenOf (annotateCode inlineOnlyBlock)).headD (Node.text ""))).contains "dim" = false :=
  ⟨rfl, rfl, rfl, rfl⟩

/-- C4 counterexample: a marker-free block whose last line is blank loses that
line and its preceding newline separator (three children become one), so the
child list is not left byte-identical. -/
theorem no_marker_block_shrinks :
    (childrenOf plainBlankBlock).length = 3 ∧
    (childrenOf (annotateCode plainBlankBlock)).length = 1 := ⟨rfl, rfl⟩

/-- C6 counterexample: the line `const x = 1; // spotlight-start` survives with
text `"const x = 1; "` — the space written before the marker is kept, so the
claimed output text `"const x = 1;"` is wrong. -/
theorem inline_marker_keeps_space :
    getText ((childrenOf (annotateCode inlineBlock)).headD (Node.text "")) = "const x = 1; " ∧
    getText ((childrenOf (annotateCode inlineBlock)).headD (Node.text "")) ≠ "const x = 1;" :=
  ⟨rfl, by decide⟩

/-- C6 (amended): the line `const x = 1; // spotlight-start` survives with text
exactly `"const x = 1; "` (the marker and the whitespace after it are stripped;
the space before it is kept), receives neither `spotlight` nor `dim`, and the
following line is spotlighted. -/
theorem inline_marker_amended :
    annotateCode inlineBlock = Node.element "code" ["has-spotlights"]
      [Node.element "span" ["line"] [Node.text "const x = 1; "], nlSep,
       Node.element "span" ["line", "spotlight"] [Node.text "const y = 2;"]] := rfl

/-- C8 counterexample: a code element with zero marker occurrences is not left
unchanged: the trailing blank line and its separator are still removed. -/
theorem zero_marker_block_changed :
    annotateCode plainTabBlock ≠ plainTabBlock := by
  intro h
  have h2 := congrArg (fun n => (childrenOf n).length) h
  exact absurd h2 (by decide)

/-- C9: the earlier revision (which deletes any line left empty after marker
stripping) and the current revision (which keeps an emptied spotlighted line as
a no-break-space placeholder) produce different output trees on a block
containing an all-whitespace line inside a spotlight region. -/
theorem revisions_differ :
    oldAnnotateCode revisionsBlock ≠ annotateCode revisionsBlock := by
  intro h
  have h2 := congrArg (fun n => (childrenOf n).length) h
  exact absurd h2 (by decide)

/-- C10 counterexample: on a line with two text values each holding a start
marker, one occurrence is stripped from each value, so the result differs from
stripping only the first occurrence of the line's concatenated text. -/
theorem dup_start_both_stripped :
    getText ((childrenOf (annotateCode twoTextBlock)).headD (Node.text "")) = "a b // spotlight-end" ∧
    replaceMarker startMarker (getText ((childrenOf twoTextBlock).headD (Node.text ""))) =
      "a b // spotlight-start // spotlight-end" ∧
    ("a b // spotlight-end" : String) ≠ "a b // spotlight-start // spotlight-end" :=
  ⟨rfl, rfl, by decide⟩

/-- C7: a line span that is not a marker line (its text contains neither marker
substring) and whose text trims to empty, processed while the spotlighting state
is true, is kept, gains the `spotlight` class, and has its content replaced by a
single no-break-space text node. -/
theorem blank_spotlight_placeholder (tg : String) (cls : List String) (cn rest' : List Node)
    (hline : isLineSpan (Node.element tg cls cn) = true)
    (hblank : jsTrim (getText (Node.element tg cls cn)) = "")
    (hns : containsSub (getText (Node.element tg cls cn)) startMarker = false)
    (hne : containsSub (getText (Node.element tg cls cn)) endMarker = false) :
    classifyLines true false (Node.element tg cls cn :: rest') =
      Node.element tg (cls ++ ["spotlight"]) [Node.text "\u00A0"] :: classifyLines true false rest' := by
  rw [classifyLines]
  rw [if_neg (by simp)]
  rw [if_pos hline]
  rw [hblank, hns, hne]
  rw [if_neg (by decide)]
  rw [if_neg Bool.false_ne_true, if_neg Bool.false_ne_true]
  rw [if_pos rfl]
  rw [if_pos (by decide)]
  rfl

/-- C7 witness: a concrete all-whitespace line under active spotlighting becomes
a spotlighted no-break-space placeholder. -/
theorem blank_spotlight_placeholder_witness :
    classifyLines true false [Node.element "span" ["line"] [Node.text "  "]] =
      [Node.element "span" ["line", "spotlight"] [Node.text "\u00A0"]] :=
  blank_spotlight_placeholder "span" ["line"] [Node.text "  "] [] rfl rfl rfl rfl

theorem hasMarkerList_append (a b : List Node) :
    hasMarkerList (a ++ b) = (hasMarkerList a || hasMarkerList b) := by
  induction a with
  | nil => simp [hasMarkerList]
  | cons c r ih => rw [List.cons_append, hasMarkerList, ih, hasMarkerList, Bool.or_assoc]

theorem dropNlHead_reverse (front : List Node) :
    dropNlHead front.reverse = (dropNlLast front).reverse := by
  cases hrev : front.reverse with
  | nil => simp [dropNlHead, dropNlLast, hrev]
  | cons hd tl =>
    cases hd with
    | text v =>
      by_cases hv : (v == "\n") = true
      · simp only [dropNlHead, dropNlLast, hrev, if_pos hv, List.reverse_reverse]
      · simp only [dropNlHead, dropNlLast, hrev, if_neg hv]
    | element t cl cn => simp [dropNlHead, dropNlLast, hrev]

theorem dropNlLast_filter (front : List Node) :
    (dropNlLast front).filter isLineSpan = front.filter isLineSpan := by
  cases hrev : front.reverse with
  | nil => simp [dropNlLast, hrev]
  | cons hd tl =>
    cases hd with
    | text v =>
      by_cases hv : (v == "\n") = true
      · have hf : front = tl.reverse ++ [Node.text v] := by
          rw [← List.reverse_reverse front, hrev]
          simp
        simp only [dropNlLast, hrev, hv, if_true]
        rw [hf, List.filter_append]
        simp [isLineSpan]
      · simp only [dropNlLast, hrev, if_neg hv]
    | element t cl cn => simp [dropNlLast, hrev]

theorem dropNlLast_lastSpanBlank (front : List Node) :
    lastSpanBlank (dropNlLast front) = lastSpanBlank front := by
  cases hrev : front.reverse with
  | nil => simp [dropNlLast, hrev]
  | cons hd tl =>
    cases hd with
    | text v =>
      by_cases hv : (v == "\n") = true
      · simp only [dropNlLast, hrev, hv, if_true]
        rw [lastSpanBlank, lastSpanBlank, List.reverse_reverse, hrev]
        rw [lastSpanBlankRev, if_neg (by rw [show isLineSpan (Node.text v) = false from rfl]; exact Bool.false_ne_true)]
      · simp only [dropNlLast, hrev, if_neg hv]
    | element t cl cn => simp [dropNlLast, hrev]

/-- C5: a code block whose last line span has all-whitespace text is cleaned up
before any classification: the blank span is removed, together with the
immediately preceding text sibling when that sibling is exactly one newline
(`dropNlLast front`), and this happens whether or not the block contains any
spotlight markers (both branches of the result show it). The removed line never
participates in spotlight-state counting — marker detection ranges only over
`front`'s line spans, an all-whitespace line being unable to carry a marker —
and never appears in the output. `front` is arbitrary (it may itself end in
blank lines; only the final blank span is cleaned up, faithfully to the
source); `suffix` is the span-free tail after the blank span. -/
theorem trailing_blank_removed (cls : List String) (front suffix : List Node) (s : Node)
    (hs : isLineSpan s = true)
    (hb : jsTrim (getText s) = "")
    (hsuf : ∀ c ∈ suffix, isLineSpan c = false) :
    annotateCode (Node.element "code" cls (front ++ s :: suffix)) =
      if hasMarkerList (front.filter isLineSpan) = true then
        Node.element "code" (cls ++ ["has-spotlights"])
          (classifyLines false false (dropNlLast front ++ suffix))
      else
        Node.element "code" cls (dropNlLast front ++ suffix) := by
  have hsufrev : ∀ c ∈ suffix.reverse, isLineSpan c = false :=
    fun c hc => hsuf c (List.mem_reverse.mp hc)
  have h1 : removeTrailingBlank (front ++ s :: suffix) = dropNlLast front ++ suffix := by
    rw [removeTrailingBlank, List.reverse_append, List.reverse_cons, List.append_assoc,
      List.singleton_append]
    rw [removeTrailingRev_append_nospan _ hsufrev]
    rw [removeTrailingRev, if_pos hs, if_pos (by rw [hb]; decide)]
    rw [dropNlHead_reverse]
    rw [List.reverse_append, List.reverse_reverse, List.reverse_reverse]
  have h4 : (front ++ s :: suffix).filter isLineSpan = front.filter isLineSpan ++ [s] := by
    rw [List.filter_append, List.filter_cons_of_pos hs, filter_isLineSpan_eq_nil.mpr hsuf]
  rw [annotateCode, h1, h4]
  rw [hasMarkerList_append, hasMarkerList, hasMarkerList, hasMarker_false_of_blank hb]
  simp only [Bool.or_false, Bool.false_or]

/-- C5 witness: a two-line block with a blank last line and its separator is
cleaned up and, being marker-free, otherwise left alone. -/
theorem trailing_blank_removed_witness :
    annotateCode (Node.element "code" [] [mkLine "p", nlSep, mkLine ""]) =
      Node.element "code" [] [mkLine "p"] :=
  (trailing_blank_removed [] [mkLine "p", nlSep] [] (mkLine "") rfl rfl
    (fun c hc => absurd hc (List.not_mem_nil c))).trans rfl

theorem hasMarker_getText {c : Node} (h : hasMarker c = true) :
    containsSub (getText c) startMarker = true ∨ containsSub (getText c) endMarker = true := by
  rw [hasMarker_values, List.any_eq_true] at h
  obtain ⟨v, hv, hmv⟩ := h
  obtain ⟨a, b, hab⟩ := textValues_within c v hv
  rw [Bool.or_eq_true] at hmv
  exact hmv.imp (containsSub_of_within hab) (containsSub_of_within hab)

/-- C4 (amended): a code block in which no line span's concatenated text contains
either marker substring, and whose last line span is not blank, is left
byte-identical: no class changes and no child changes. (The original claim is
false when the last line is blank, since the trailing-blank cleanup runs even
without markers.) -/
theorem no_marker_identity (cls : List String) (cs : List Node)
    (hno : ∀ c ∈ cs, isLineSpan c = true →
      containsSub (getText c) startMarker = false ∧ containsSub (getText c) endMarker = false)
    (hlast : lastSpanBlank cs = false) :
    annotateCode (Node.element "code" cls cs) = Node.element "code" cls cs := by
  have hmk : hasMarkerList (cs.filter isLineSpan) = false := by
    rw [Bool.eq_false_iff]
    intro h
    obtain ⟨c, hc, hm⟩ := hasMarkerList_exists.mp h
    obtain ⟨hc1, hc2⟩ := List.mem_filter.mp hc
    rcases hasMarker_getText hm with h2 | h2
    · rw [(hno c hc1 hc2).1] at h2
      exact Bool.noConfusion h2
    · rw [(hno c hc1 hc2).2] at h2
      exact Bool.noConfusion h2
  rw [annotateCode, if_neg (by rw [hmk]; exact Bool.false_ne_true), removeTrailingBlank_id hlast]

/-- C4 witness: a concrete marker-free block with a nonblank last line is
unchanged. -/
theorem no_marker_identity_witness :
    annotateCode (Node.element "code" ["lang"] [mkLine "q", nlSep]) =
      Node.element "code" ["lang"] [mkLine "q", nlSep] :=
  no_marker_identity ["lang"] [mkLine "q", nlSep] (by decide) rfl

theorem replaceFirstCode_id : ∀ cs : List Node, (∀ c ∈ cs, isCodeTag c = false) →
    replaceFirstCode cs = cs
  | [] => fun _ => rfl
  | c :: rest => by
    intro h
    rw [replaceFirstCode, if_neg (by rw [h c (by simp)]; exact Bool.false_ne_true),
      replaceFirstCode_id rest (fun d hd => h d (by simp [hd]))]

theorem removeTrailingRev_nospan : ∀ l : List Node, (∀ c ∈ l, isLineSpan c = false) →
    removeTrailingRev l = l
  | [] => fun _ => rfl
  | c :: rest => by
    intro h
    rw [removeTrailingRev, if_neg (by rw [h c (by simp)]; exact Bool.false_ne_true),
      removeTrailingRev_nospan rest (fun d hd => h d (by simp [hd]))]

/-- C8 (amended): the transform is total by construction, and the early-return
paths are no-ops: a `pre` element with no `code`-tagged child is unchanged; a
code element with zero line spans is unchanged; and a code element with zero
marker occurrences is unchanged apart from the trailing-blank cleanup, which
runs regardless of markers. (The original claim that a zero-marker block is left
fully unchanged is false when its last line is blank.) -/
theorem never_raises_noop :
    (∀ (cls : List String) (cs : List Node), (∀ c ∈ cs, isCodeTag c = false) →
      annotatePre (Node.element "pre" cls cs) = Node.element "pre" cls cs)
    ∧ (∀ (t : String) (cls : List String) (cs : List Node), cs.filter isLineSpan = [] →
      annotateCode (Node.element t cls cs) = Node.element t cls cs)
    ∧ (∀ (t : String) (cls : List String) (cs : List Node),
      hasMarkerList (cs.filter isLineSpan) = false →
      annotateCode (Node.element t cls cs) = Node.element t cls (removeTrailingBlank cs)) := by
  refine ⟨?_, ?_, ?_⟩
  · intro cls cs h
    rw [annotatePre, if_pos (by decide), replaceFirstCode_id cs h]
  · intro t cls cs h
    have hall : ∀ c ∈ cs, isLineSpan c = false := filter_isLineSpan_eq_nil.mp h
    have hrb : removeTrailingBlank cs = cs := by
      rw [removeTrailingBlank,
        removeTrailingRev_nospan cs.reverse (fun c hc => hall c (List.mem_reverse.mp hc)),
        List.reverse_reverse]
    rw [annotateCode, h, if_neg (by rw [hasMarkerList]; exact Bool.false_ne_true), hrb]
  · intro t cls cs h
    rw [annotateCode, if_neg (by rw [h]; exact Bool.false_ne_true)]

/-- C8 witness: the three no-op paths at concrete inputs — a `pre` with no code
child, a code element with no line spans, and a marker-free code element. -/
theorem never_raises_noop_witness :
    annotatePre (Node.element "pre" [] [Node.text "loose"]) = Node.element "pre" [] [Node.text "loose"]
    ∧ annotateCode (Node.element "code" [] [Node.text "plain"]) = Node.element "code" [] [Node.text "plain"]
    ∧ annotateCode (Node.element "code" [] [mkLine "w"]) =
        Node.element "code" [] (removeTrailingBlank [mkLine "w"]) :=
  ⟨never_raises_noop.1 [] [Node.text "loose"] (by decide),
   never_raises_noop.2.1 "code" [] [Node.text "plain"] rfl,
   never_raises_noop.2.2 "code" [] [mkLine "w"] rfl⟩

/-! ## Helper lemmas: cross-value survival of the end marker -/

theorem startsWithSeg_length_le {s p : List Char} (h : startsWithSeg s p = true) :
    p.length ≤ s.length := by
  obtain ⟨t, rfl⟩ := startsWithSeg_iff_append.mp h
  simp

theorem startsWithSeg_nil_pat : ∀ s : List Char, startsWithSeg s [] = true
  | [] => rfl
  | _ :: _ => rfl

theorem replaceSeg_id_of_short (pat : List Char) : ∀ v : List Char, v.length < pat.length →
    replaceSeg pat v = v
  | [] => fun _ => rfl
  | c :: rest => by
    intro h
    rw [List.length_cons] at h
    rw [replaceSeg, if_neg (fun hk => absurd (startsWithSeg_length_le hk) (by simp; omega)),
      replaceSeg_id_of_short pat rest (by omega)]

theorem dropWhile_append_head : ∀ (a b : List Char), b ≠ [] → isJsWS (b.headD ' ') = false →
    List.dropWhile isJsWS (a ++ b) = List.dropWhile isJsWS a ++ b
  | [], b => by
    intro hb hw
    cases b with
    | nil => exact absurd rfl hb
    | cons x b2 =>
      have hx : ¬ isJsWS x = true := by
        rw [show isJsWS x = isJsWS ((x :: b2).headD ' ') from rfl, hw]
        exact Bool.false_ne_true
      rw [List.nil_append, List.dropWhile_nil, List.nil_append, List.dropWhile_cons_of_neg hx]
  | y :: a2, b => by
    intro hb hw
    rw [List.cons_append]
    by_cases hy : isJsWS y = true
    · rw [List.dropWhile_cons_of_pos hy, List.dropWhile_cons_of_pos hy,
        dropWhile_append_head a2 b hb hw]
    · rw [List.dropWhile_cons_of_neg hy, List.dropWhile_cons_of_neg hy, List.cons_append]

theorem startsWithSeg_getElem {s p : List Char} (h : startsWithSeg s p = true)
    (k : Nat) (hk : k < p.length) : s[k]? = p[k]? := by
  obtain ⟨t, rfl⟩ := startsWithSeg_iff_append.mp h
  rw [List.getElem?_append_left hk]

theorem headD_take (l : List Char) (m : Nat) (d : Char) (hm : 0 < m) :
    (l.take m).headD d = l.headD d := by
  cases l with
  | nil => rw [List.take_nil]
  | cons a l2 =>
    cases m with
    | zero => omega
    | succ k => rw [List.take_succ_cons]; rfl

theorem replaceSeg_append_epPrefix (m : Nat) (hm0 : 0 < m) (hm1 : m ≤ 16) :
    ∀ x : List Char,
      replaceSeg ("// spotlight-start".data) (x ++ ("// spotlight-end".data).take m) =
        replaceSeg ("// spotlight-start".data) x ++ ("// spotlight-end".data).take m := by
  have hEP : ("// spotlight-end".data).length = 16 := by decide
  have hSP : ("// spotlight-start".data).length = 18 := by decide
  have hPlen : (("// spotlight-end".data).take m).length = m := by
    rw [List.length_take, hEP]
    omega
  have hPne : ("// spotlight-end".data).take m ≠ [] := by
    intro hk
    have h2 := congrArg List.length hk
    rw [hPlen] at h2
    simp at h2
    omega
  have hPhead : isJsWS ((("// spotlight-end".data).take m).headD ' ') = false := by
    rw [headD_take _ _ _ hm0]
    decide
  intro x
  induction x with
  | nil =>
    show replaceSeg ("// spotlight-start".data) (("// spotlight-end".data).take m) =
      ("// spotlight-end".data).take m
    apply replaceSeg_id_of_short
    rw [hPlen, hSP]
    omega
  | cons c x2 ih =>
    rw [List.cons_append]
    by_cases h1 : startsWithSeg (c :: (x2 ++ ("// spotlight-end".data).take m))
        ("// spotlight-start".data) = true
    · by_cases hlen : ("// spotlight-start".data).length ≤ (c :: x2).length
      · have h2 : startsWithSeg (c :: x2) ("// spotlight-start".data) = true := by
          rw [← startsWithSeg_append_of_le (c :: x2) (("// spotlight-end".data).take m) _ hlen]
          exact h1
        simp only [replaceSeg]
        rw [if_pos h1, if_pos h2]
        rw [show (c :: (x2 ++ ("// spotlight-end".data).take m)) =
            (c :: x2) ++ ("// spotlight-end".data).take m from rfl]
        rw [List.drop_append_eq_append_drop, Nat.sub_eq_zero_of_le hlen, List.drop_zero]
        rw [dropWhile_append_head _ _ hPne hPhead]
      · exfalso
        have htot := startsWithSeg_length_le h1
        rw [hSP] at htot hlen
        rw [List.length_cons, List.length_append, hPlen] at htot
        rw [List.length_cons] at hlen
        have hk1 : 2 ≤ (c :: x2).length := by
          rw [List.length_cons]
          omega
        have hk2 : (c :: x2).length < ("// spotlight-start".data).length := by
          rw [hSP, List.length_cons]
          omega
        have hq := startsWithSeg_getElem h1 (c :: x2).length hk2
        have hL : (c :: (x2 ++ ("// spotlight-end".data).take m))[(c :: x2).length]? =
            (("// spotlight-end".data).take m)[0]? := by
          rw [show (c :: (x2 ++ ("// spotlight-end".data).take m)) =
              (c :: x2) ++ ("// spotlight-end".data).take m from rfl]
          rw [List.getElem?_append_right (Nat.le_refl _), Nat.sub_self]
        have hP0 : (("// spotlight-end".data).take m)[0]? = some '/' := by
          rw [List.getElem?_take_of_lt hm0]
          decide
        rw [hL, hP0] at hq
        have hno : ∀ k, 2 ≤ k → k < 18 → ¬(("// spotlight-start".data)[k]? = some '/') := by decide
        exact hno (c :: x2).length hk1 (by rw [hSP] at hk2; exact hk2) hq.symm
    · have h2 : startsWithSeg (c :: x2) ("// spotlight-start".data) = false := by
        rw [Bool.eq_false_iff]
        intro hk
        exact h1 (startsWithSeg_append_mono _ hk)
      simp only [replaceSeg]
      rw [if_neg h1, if_neg (by rw [h2]; exact Bool.false_ne_true), ih, List.cons_append]

theorem replaceSeg_epSuffix_append (m : Nat) (hm : m < 16) (y : List Char) :
    replaceSeg ("// spotlight-start".data) (("// spotlight-end".data).drop m ++ y) =
      ("// spotlight-end".data).drop m ++ replaceSeg ("// spotlight-start".data) y := by
  have hskip2 : ∀ z : List Char,
      replaceSeg ("// spotlight-start".data) (("// spotlight-end".data).drop 2 ++ z) =
        ("// spotlight-end".data).drop 2 ++ replaceSeg ("// spotlight-start".data) z := by
    intro z
    apply replaceSeg_skip_head (by decide)
    have hfact : ∀ x ∈ ("// spotlight-end".data).drop 2, (x == '/') = false := by decide
    intro x hx
    exact hfact x hx
  by_cases hm2 : 2 ≤ m
  · apply replaceSeg_skip_head (by decide)
    have hfact : ∀ x ∈ ("// spotlight-end".data).drop 2, (x == '/') = false := by decide
    intro x hx
    have hx2 : x ∈ ("// spotlight-end".data).drop 2 := by
      have hdd : ("// spotlight-end".data).drop m = (("// spotlight-end".data).drop 2).drop (m - 2) := by
        rw [List.drop_drop]
        congr 1
        omega
      rw [hdd] at hx
      exact List.mem_of_mem_drop hx
    exact hfact x hx2
  · have hc1 : ∀ z : List Char,
        startsWithSeg ((("// spotlight-end".data).drop 1) ++ z) ("// spotlight-start".data) = false := by
      intro z
      rw [startsWithSeg_take_split,
        show startsWithSeg (("// spotlight-end".data).drop 1)
          (("// spotlight-start".data).take (("// spotlight-end".data).drop 1).length) = false
          from by decide,
        Bool.false_and]
    have hstep1 : ∀ z : List Char,
        replaceSeg ("// spotlight-start".data) (("// spotlight-end".data).drop 1 ++ z) =
          ("// spotlight-end".data).drop 1 ++ replaceSeg ("// spotlight-start".data) z := by
      intro z
      rw [show (("// spotlight-end".data).drop 1 : List Char) ++ z =
          '/' :: (("// spotlight-end".data).drop 2 ++ z) from rfl]
      rw [replaceSeg]
      rw [if_neg (by
        intro hk
        rw [show ('/' :: (("// spotlight-end".data).drop 2 ++ z) : List Char) =
            ("// spotlight-end".data).drop 1 ++ z from rfl] at hk
        rw [hc1 z] at hk
        exact Bool.noConfusion hk)]
      rw [hskip2 z]
      rfl
    interval_cases m
    · have hc0 : startsWithSeg (("// spotlight-end".data) ++ y) ("// spotlight-start".data) = false := by
        rw [startsWithSeg_take_split,
          show startsWithSeg ("// spotlight-end".data)
            (("// spotlight-start".data).take ("// spotlight-end".data).length) = false
            from by decide,
          Bool.false_and]
      rw [List.drop_zero]
      rw [show (("// spotlight-end".data) : List Char) ++ y =
          '/' :: (("// spotlight-end".data).drop 1 ++ y) from rfl]
      rw [replaceSeg]
      rw [if_neg (by
        intro hk
        rw [show ('/' :: (("// spotlight-end".data).drop 1 ++ y) : List Char) =
            ("// spotlight-end".data) ++ y from rfl] at hk
        rw [hc0] at hk
        exact Bool.noConfusion hk)]
      rw [hstep1 y]
      rfl
    · exact hstep1 y

theorem startsWith_append_cancel {q X : List Char} (a : List Char)
    (h : startsWithSeg X q = true) : startsWithSeg (a ++ X) (a ++ q) = true := by
  obtain ⟨t, ht⟩ := startsWithSeg_iff_append.mp h
  exact startsWithSeg_iff_append.mpr ⟨t, by rw [ht, List.append_assoc]⟩

theorem startsWith_epSuffix_join : ∀ (W : List (List Char)) (m : Nat),
    startsWithSeg W.flatten (("// spotlight-end".data).drop m) = true →
    startsWithSeg (W.map (replaceSeg ("// spotlight-start".data))).flatten
      (("// spotlight-end".data).drop m) = true := by
  intro W
  induction W with
  | nil =>
    intro m h
    simpa using h
  | cons w W ih =>
    intro m h
    by_cases h16 : 16 ≤ m
    · rw [List.drop_eq_nil_of_le
        (by rw [show ("// spotlight-end".data).length = 16 from by decide]; exact h16)]
      exact startsWithSeg_nil_pat _
    · push_neg at h16
      rw [List.flatten_cons] at h
      by_cases hlen : (("// spotlight-end".data).drop m).length ≤ w.length
      · rw [startsWithSeg_append_of_le w W.flatten _ hlen] at h
        obtain ⟨z, hz⟩ := startsWithSeg_iff_append.mp h
        rw [List.map_cons, List.flatten_cons, hz, replaceSeg_epSuffix_append m h16 z,
          List.append_assoc]
        exact startsWithSeg_append_self _ _
      · push_neg at hlen
        obtain ⟨t, ht⟩ := startsWithSeg_iff_append.mp h
        have hw : w = (("// spotlight-end".data).drop m).take w.length := by
          have h1 := congrArg (List.take w.length) ht
          rw [List.take_left] at h1
          conv_lhs => rw [h1]
          rw [List.take_append_eq_append_take,
            Nat.sub_eq_zero_of_le hlen.le, List.take_zero, List.append_nil]
        have hfl : W.flatten = ("// spotlight-end".data).drop (w.length + m) ++ t := by
          have h2 := congrArg (List.drop w.length) ht
          rw [List.drop_left] at h2
          rw [h2, List.drop_append_eq_append_drop,
            Nat.sub_eq_zero_of_le hlen.le, List.drop_zero, List.drop_drop,
            Nat.add_comm m w.length]
        have h3 : startsWithSeg (W.map (replaceSeg ("// spotlight-start".data))).flatten
            (("// spotlight-end".data).drop (w.length + m)) = true :=
          ih (w.length + m) (startsWithSeg_iff_append.mpr ⟨t, hfl⟩)
        have hrw : replaceSeg ("// spotlight-start".data) w = w :=
          replaceSeg_id_of_short _ w (by
            have hle : (("// spotlight-end".data).drop m).length ≤ 16 := by
              rw [List.length_drop, show ("// spotlight-end".data).length = 16 from by decide]
              omega
            rw [show ("// spotlight-start".data).length = 18 from by decide]
            omega)
        have hsplit : ("// spotlight-end".data).drop m
            = w ++ ("// spotlight-end".data).drop (w.length + m) := by
          conv_lhs => rw [← List.take_append_drop w.length (("// spotlight-end".data).drop m)]
          rw [← hw, List.drop_drop, Nat.add_comm m w.length]
        rw [List.map_cons, List.flatten_cons, hrw, hsplit]
        exact startsWith_append_cancel w h3

theorem containsSeg_append_split : ∀ (a : List Char) {b p : List Char}, p ≠ [] →
    containsSeg (a ++ b) p = true →
    containsSeg a p = true ∨ containsSeg b p = true ∨
      ∃ m, 0 < m ∧ m < p.length ∧ (∃ x, a = x ++ p.take m) ∧
        startsWithSeg b (p.drop m) = true := by
  intro a
  induction a with
  | nil =>
    intro b p hp h
    exact Or.inr (Or.inl (by simpa using h))
  | cons c a ih =>
    intro b p hp h
    rw [List.cons_append] at h
    rcases containsSeg_cons_elim h with hsw | hc
    · by_cases hlen : p.length ≤ (c :: a).length
      · left
        apply containsSeg_of_startsWithSeg
        rw [← startsWithSeg_append_of_le (c :: a) b p hlen]
        exact hsw
      · push_neg at hlen
        right; right
        obtain ⟨t, ht⟩ := startsWithSeg_iff_append.mp
          (show startsWithSeg ((c :: a) ++ b) p = true from hsw)
        refine ⟨(c :: a).length, by simp, hlen, ⟨[], ?_⟩, ?_⟩
        · rw [List.nil_append]
          have h1 := congrArg (List.take (c :: a).length) ht
          rw [List.take_left] at h1
          conv_lhs => rw [h1]
          rw [List.take_append_eq_append_take,
            Nat.sub_eq_zero_of_le hlen.le, List.take_zero, List.append_nil]
        · have h2 := congrArg (List.drop (c :: a).length) ht
          rw [List.drop_left] at h2
          rw [h2, List.drop_append_eq_append_drop,
            Nat.sub_eq_zero_of_le hlen.le, List.drop_zero]
          exact startsWithSeg_append_self _ _
    · rcases ih hp hc with h1 | h2 | ⟨m, hm0, hm1, ⟨x, hx⟩, hsb⟩
      · exact Or.inl (containsSeg_cons_of h1)
      · exact Or.inr (Or.inl h2)
      · exact Or.inr (Or.inr ⟨m, hm0, hm1, ⟨c :: x, by rw [hx]; rfl⟩, hsb⟩)

theorem endSurvivesJoin : ∀ vs : List (List Char),
    containsSeg vs.flatten ("// spotlight-end".data) = true →
    containsSeg (vs.map (replaceSeg ("// spotlight-start".data))).flatten
      ("// spotlight-end".data) = true := by
  intro vs
  induction vs with
  | nil =>
    intro h
    simpa using h
  | cons v vs ih =>
    intro h
    rw [List.flatten_cons] at h
    rcases containsSeg_append_split v (by decide) h with h1 | h2 | ⟨m, hm0, hm1, ⟨x, hx⟩, hsb⟩
    · rw [List.map_cons, List.flatten_cons]
      exact containsSeg_append_right _ (endSurvivesSeg v h1)
    · rw [List.map_cons, List.flatten_cons]
      exact containsSeg_append_left _ (ih h2)
    · have hm16 : m < 16 := by
        have := hm1
        rw [show ("// spotlight-end".data).length = 16 from by decide] at this
        exact this
      obtain ⟨t, htl⟩ := startsWithSeg_iff_append.mp (startsWith_epSuffix_join vs m hsb)
      rw [List.map_cons, List.flatten_cons, hx,
        replaceSeg_append_epPrefix m hm0 hm16.le x, htl, List.append_assoc,
        ← List.append_assoc (("// spotlight-end".data).take m),
        List.take_append_drop]
      exact containsSeg_append_left _
        (containsSeg_append_right _ (containsSeg_of_startsWithSeg (startsWithSeg_refl _)))

mutual
theorem getText_data_join : ∀ n : Node,
    (getText n).data = ((textValues n).map String.data).flatten
  | .text v => by simp [getText, textValues]
  | .element _ _ cs => getTextList_data_join cs
theorem getTextList_data_join : ∀ l : List Node,
    (getTextList l).data = ((textValuesList l).map String.data).flatten
  | [] => rfl
  | c :: r => by
    rw [getTextList, textValuesList, List.map_append, List.flatten_append,
      String.data_append, getText_data_join c, getTextList_data_join r]
end

theorem endSurvives_getText (c : Node)
    (h : containsSub (getText c) endMarker = true) :
    containsSub (getText (transformNode startMarker c)) endMarker = true := by
  rw [containsSub] at h
  rw [getText_data_join] at h
  rw [containsSub, getText_data_join, textValues_transformNode]
  have hcomp : String.data ∘ replaceMarker startMarker
      = replaceSeg ("// spotlight-start".data) ∘ String.data := funext fun v => rfl
  rw [show List.map String.data ((textValues c).map (replaceMarker startMarker))
      = ((textValues c).map String.data).map (replaceSeg ("// spotlight-start".data)) from by
    rw [List.map_map, List.map_map, hcomp]]
  exact endSurvivesJoin _ h

/-- C10 (amended): a line span that is not marker-only but whose concatenated
text contains both marker substrings is handled by the start branch: the
spotlighting state becomes true, the line survives with the first occurrence of
the start substring (plus trailing whitespace) stripped from each text value
separately (not a single occurrence for the whole line), the line receives no
class, and the end-marker substring still occurs in the line's concatenated
text after that stripping. -/
theorem both_markers_start_branch (tg : String) (cls : List String) (cn rest' : List Node) (st : Bool)
    (hline : isLineSpan (Node.element tg cls cn) = true)
    (hcs : containsSub (getText (Node.element tg cls cn)) startMarker = true)
    (hce : containsSub (getText (Node.element tg cls cn)) endMarker = true)
    (hm1 : jsTrim (getText (Node.element tg cls cn)) ≠ startMarker)
    (hm2 : jsTrim (getText (Node.element tg cls cn)) ≠ endMarker) :
    classifyLines st false (Node.element tg cls cn :: rest') =
      transformNode startMarker (Node.element tg cls cn) :: classifyLines true false rest'
    ∧ textValues (transformNode startMarker (Node.element tg cls cn)) =
      (textValues (Node.element tg cls cn)).map (replaceMarker startMarker)
    ∧ containsSub (getText (transformNode startMarker (Node.element tg cls cn))) endMarker = true := by
  refine ⟨?_, textValues_transformNode startMarker _, endSurvives_getText _ hce⟩
  · rw [classifyLines]
    rw [if_neg (by simp)]
    rw [if_pos hline]
    rw [if_neg (by
      intro hk
      rw [Bool.or_eq_true] at hk
      rcases hk with hk | hk
      · exact hm1 (by simpa using hk)
      · exact hm2 (by simpa using hk))]
    rw [if_pos hcs]

/-- C10 witness: a concrete line holding both markers takes the start branch. -/
theorem both_markers_start_branch_witness :
    classifyLines false false
        [Node.element "span" ["line"] [Node.text "q // spotlight-start w // spotlight-end"]] =
      [transformNode startMarker
        (Node.element "span" ["line"] [Node.text "q // spotlight-start w // spotlight-end"])] :=
  (both_markers_start_branch "span" ["line"]
    [Node.text "q // spotlight-start w // spotlight-end"] [] false rfl rfl rfl
    (by decide) (by decide)).1

theorem classNameOf_transformNode (pat : String) : ∀ c, classNameOf (transformNode pat c) = classNameOf c
  | .text _ => rfl
  | .element _ _ _ => rfl

theorem isLineSpan_transformNode (pat : String) : ∀ c, isLineSpan (transformNode pat c) = isLineSpan c
  | .text _ => rfl
  | .element _ _ _ => rfl

theorem sdCount_transformNode (pat : String) (c : Node) :
    sdCount (transformNode pat c) = sdCount c := by
  rw [sdCount, sdCount, classNameOf_transformNode]

theorem sdCount_zero_of_sdFree {c : Node} (h : sdFree c = true) : sdCount c = 0 := by
  rw [sdFree, Bool.not_eq_true', Bool.or_eq_false_iff] at h
  rw [sdCount, List.length_eq_zero, List.filter_eq_nil_iff]
  intro a ha hk
  rw [Bool.or_eq_true, beq_iff_eq, beq_iff_eq] at hk
  rcases hk with rfl | rfl
  · have hm : (classNameOf c).contains "spotlight" = true := List.elem_eq_true_of_mem ha
    rw [hm] at h
    exact Bool.noConfusion h.1
  · have hm : (classNameOf c).contains "dim" = true := List.elem_eq_true_of_mem ha
    rw [hm] at h
    exact Bool.noConfusion h.2

theorem classNameOf_setNbspChildren : ∀ c, classNameOf (setNbspChildren c) = classNameOf c
  | .text _ => rfl
  | .element _ _ _ => rfl

theorem sdCount_setNbspChildren (c : Node) : sdCount (setNbspChildren c) = sdCount c := by
  rw [sdCount, sdCount, classNameOf_setNbspChildren]

theorem sdCount_addClass {c : Node} {tok : String} (h2 : isLineSpan c = true)
    (hf : sdFree c = true) (htok : (tok == "spotlight" || tok == "dim") = true) :
    sdCount (addClass tok c) = 1 := by
  cases c with
  | text v => exact Bool.noConfusion h2
  | element t cl cn =>
    have h0 : sdCount (Node.element t cl cn) = 0 := sdCount_zero_of_sdFree hf
    rw [sdCount, classNameOf, List.length_eq_zero] at h0
    rw [addClass, sdCount, classNameOf, List.filter_append, h0, List.nil_append,
      List.filter_singleton, htok]
    rfl

theorem survivingImage_lift {c : Node} {rest : List Node} {n : Node}
    (h : survivingImage rest n) : survivingImage (c :: rest) n := by
  obtain ⟨d, hd, hrest⟩ := h
  exact ⟨d, List.mem_cons_of_mem c hd, hrest⟩

theorem classify_sd : ∀ (st pend : Bool) (l : List Node),
    (∀ c ∈ l, isLineSpan c = true → sdFree c = true) →
    ∀ n ∈ classifyLines st pend l, isLineSpan n = true →
      sdCount n ≤ 1 ∧ survivingImage l n
  | _, _, [] => by
    intro _ n hn
    rw [classifyLines] at hn
    exact absurd hn (List.not_mem_nil n)
  | st, pend, c :: rest => by
    intro hfree n hn hline
    have hftail : ∀ d ∈ rest, isLineSpan d = true → sdFree d = true :=
      fun d hd => hfree d (List.mem_cons_of_mem c hd)
    rw [classifyLines] at hn
    by_cases h1 : (pend && isNlText c) = true
    · rw [if_pos h1] at hn
      obtain ⟨ha, hb⟩ := classify_sd st false rest hftail n hn hline
      exact ⟨ha, survivingImage_lift hb⟩
    · rw [if_neg h1] at hn
      by_cases h2 : isLineSpan c = true
      · rw [if_pos h2] at hn
        by_cases h3 : (jsTrim (getText c) == startMarker || jsTrim (getText c) == endMarker) = true
        · rw [if_pos h3] at hn
          obtain ⟨ha, hb⟩ :=
            classify_sd (containsSub (getText c) "spotlight-start") true rest hftail n hn hline
          exact ⟨ha, survivingImage_lift hb⟩
        · rw [if_neg h3] at hn
          have hm1 : jsTrim (getText c) ≠ startMarker := fun hk => h3 (by rw [hk]; simp)
          have hm2 : jsTrim (getText c) ≠ endMarker := fun hk => h3 (by rw [hk]; simp)
          by_cases h4 : containsSub (getText c) startMarker = true
          · rw [if_pos h4] at hn
            rcases List.mem_cons.mp hn with rfl | hn2
            · have hz : sdCount (transformNode startMarker c) = 0 := by
                rw [sdCount_transformNode]
                exact sdCount_zero_of_sdFree (hfree c (List.mem_cons_self c rest) h2)
              exact ⟨hz.le.trans (Nat.zero_le 1),
                ⟨c, List.mem_cons_self c rest, h2, hm1, hm2, Or.inl ⟨h4, rfl, hz⟩⟩⟩
            · obtain ⟨ha, hb⟩ := classify_sd true false rest hftail n hn2 hline
              exact ⟨ha, survivingImage_lift hb⟩
          · rw [if_neg h4] at hn
            have h4f : containsSub (getText c) startMarker = false := Bool.eq_false_iff.mpr h4
            by_cases h5 : containsSub (getText c) endMarker = true
            · rw [if_pos h5] at hn
              rcases List.mem_cons.mp hn with rfl | hn2
              · have hz : sdCount (transformNode endMarker c) = 0 := by
                  rw [sdCount_transformNode]
                  exact sdCount_zero_of_sdFree (hfree c (List.mem_cons_self c rest) h2)
                exact ⟨hz.le.trans (Nat.zero_le 1),
                  ⟨c, List.mem_cons_self c rest, h2, hm1, hm2,
                    Or.inr (Or.inl ⟨h4f, h5, rfl, hz⟩)⟩⟩
              · obtain ⟨ha, hb⟩ := classify_sd false false rest hftail n hn2 hline
                exact ⟨ha, survivingImage_lift hb⟩
            · rw [if_neg h5] at hn
              have h5f : containsSub (getText c) endMarker = false := Bool.eq_false_iff.mpr h5
              have hcfree : sdFree c = true := hfree c (List.mem_cons_self c rest) h2
              by_cases h6 : st = true
              · rw [if_pos h6] at hn
                rcases List.mem_cons.mp hn with rfl | hn2
                · have hone : sdCount (if (jsTrim (getText c) == "") = true then
                      setNbspChildren (addClass "spotlight" c) else addClass "spotlight" c) = 1 := by
                    by_cases h7 : (jsTrim (getText c) == "") = true
                    · rw [if_pos h7, sdCount_setNbspChildren]
                      exact sdCount_addClass h2 hcfree (by decide)
                    · rw [if_neg h7]
                      exact sdCount_addClass h2 hcfree (by decide)
                  exact ⟨hone.le,
                    ⟨c, List.mem_cons_self c rest, h2, hm1, hm2,
                      Or.inr (Or.inr ⟨h4f, h5f, Or.inr rfl, hone⟩)⟩⟩
                · obtain ⟨ha, hb⟩ := classify_sd st false rest hftail n hn2 hline
                  exact ⟨ha, survivingImage_lift hb⟩
              · rw [if_neg h6] at hn
                rcases List.mem_cons.mp hn with rfl | hn2
                · have hone : sdCount (addClass "dim" c) = 1 :=
                    sdCount_addClass h2 hcfree (by decide)
                  exact ⟨hone.le,
                    ⟨c, List.mem_cons_self c rest, h2, hm1, hm2,
                      Or.inr (Or.inr ⟨h4f, h5f, Or.inl rfl, hone⟩)⟩⟩
                · obtain ⟨ha, hb⟩ := classify_sd st false rest hftail n hn2 hline
                  exact ⟨ha, survivingImage_lift hb⟩
      · rw [if_neg h2] at hn
        rcases List.mem_cons.mp hn with rfl | hn2
        · exact absurd hline h2
        · obtain ⟨ha, hb⟩ := classify_sd st false rest hftail n hn2 hline
          exact ⟨ha, survivingImage_lift hb⟩

/-- C3 (amended): in a block that gains `has-spotlights`, provided no input line
span already carries `spotlight` or `dim`, every surviving line span carries at
most one of the two state classes, and the `survivingImage` correspondence
holds: the span is the image of a non-marker-only input line, it carries
neither class exactly when that line carried an inline marker (the first two
disjuncts, with `sdCount n = 0`), and it carries exactly one class exactly when
that line was marker-free (the third disjunct, with `sdCount n = 1`);
marker-only lines are never pre-images — they are removed entirely. The
original claim is false because marker-inline lines survive unclassified. -/
theorem classes_exclusive (cls : List String) (cs : List Node)
    (hfree : ∀ c ∈ cs, isLineSpan c = true → sdFree c = true)
    (hmk : hasMarkerList (cs.filter isLineSpan) = true) :
    ∀ n ∈ childrenOf (annotateCode (Node.element "code" cls cs)), isLineSpan n = true →
      sdCount n ≤ 1 ∧ survivingImage cs n := by
  intro n hn hline
  rw [annotateCode, if_pos hmk, childrenOf] at hn
  have hsub := removeTrailingBlank_sublist cs
  have hfree2 : ∀ c ∈ removeTrailingBlank cs, isLineSpan c = true → sdFree c = true :=
    fun c hc => hfree c (hsub.subset hc)
  obtain ⟨ha, hb⟩ := classify_sd false false (removeTrailingBlank cs) hfree2 n hn hline
  obtain ⟨d, hd, hrest⟩ := hb
  exact ⟨ha, ⟨d, hsub.subset hd, hrest⟩⟩

/-- C3 witness: in a concrete spotlighted block the surviving dimmed first line
carries exactly one state class. -/
theorem classes_exclusive_witness :
    sdCount (Node.element "span" ["line", "dim"] [Node.text "A"]) ≤ 1 :=
  (classes_exclusive [] [mkLine "A", nlSep, mkLine "// spotlight-start", nlSep, mkLine "B"]
    (by decide) rfl (Node.element "span" ["line", "dim"] [Node.text "A"])
    (List.mem_cons_self _ _) rfl).1

theorem textValues_addClass (tok : String) : ∀ c, textValues (addClass tok c) = textValues c
  | .text _ => rfl
  | .element _ _ _ => rfl

theorem textValues_setNbspChildren {c : Node} (h : isLineSpan c = true) :
    textValues (setNbspChildren c) = [" "] := by
  cases c with
  | text v => exact Bool.noConfusion h
  | element t cl cn => rfl

theorem markerFreeVals_spec {c : Node} (h : markerFreeVals c = true) :
    ∀ v ∈ textValues c, containsSub v startMarker = false ∧ containsSub v endMarker = false := by
  rw [markerFreeVals, List.all_eq_true] at h
  intro v hv
  have := h v hv
  rw [Bool.and_eq_true, Bool.not_eq_true', Bool.not_eq_true'] at this
  exact this

theorem cleanAfter_spec {pat : String} {c : Node} (h : cleanAfter pat c = true) :
    ∀ v ∈ textValues c,
      containsSub (replaceMarker pat v) startMarker = false ∧
      containsSub (replaceMarker pat v) endMarker = false := by
  rw [cleanAfter, List.all_eq_true] at h
  intro v hv
  have := h v hv
  rw [Bool.and_eq_true, Bool.not_eq_true', Bool.not_eq_true'] at this
  exact this

theorem classify_clean : ∀ (st pend : Bool) (l : List Node),
    (∀ c ∈ l, lineClean c = true) →
    ∀ v ∈ textValuesList (classifyLines st pend l),
      containsSub v startMarker = false ∧ containsSub v endMarker = false
  | _, _, [] => by
    intro _ v hv
    rw [classifyLines] at hv
    exact absurd hv (List.not_mem_nil v)
  | st, pend, c :: rest => by
    intro hclean v hv
    have htail : ∀ d ∈ rest, lineClean d = true :=
      fun d hd => hclean d (List.mem_cons_of_mem c hd)
    have hchead : lineClean c = true := hclean c (List.mem_cons_self c rest)
    rw [classifyLines] at hv
    by_cases h1 : (pend && isNlText c) = true
    · rw [if_pos h1] at hv
      exact classify_clean st false rest htail v hv
    · rw [if_neg h1] at hv
      by_cases h2 : isLineSpan c = true
      · rw [if_pos h2] at hv
        by_cases h3 : (jsTrim (getText c) == startMarker || jsTrim (getText c) == endMarker) = true
        · rw [if_pos h3] at hv
          exact classify_clean (containsSub (getText c) "spotlight-start") true rest htail v hv
        · rw [if_neg h3] at hv
          by_cases h4 : containsSub (getText c) startMarker = true
          · rw [if_pos h4] at hv
            rw [textValuesList] at hv
            rcases List.mem_append.mp hv with hv2 | hv2
            · rw [textValues_transformNode] at hv2
              obtain ⟨w, hw, rfl⟩ := List.mem_map.mp hv2
              rw [lineClean, if_pos h2, if_neg h3, if_pos h4] at hchead
              exact cleanAfter_spec hchead w hw
            · exact classify_clean true false rest htail v hv2
          · rw [if_neg h4] at hv
            by_cases h5 : containsSub (getText c) endMarker = true
            · rw [if_pos h5] at hv
              rw [textValuesList] at hv
              rcases List.mem_append.mp hv with hv2 | hv2
              · rw [textValues_transformNode] at hv2
                obtain ⟨w, hw, rfl⟩ := List.mem_map.mp hv2
                rw [lineClean, if_pos h2, if_neg h3, if_neg h4, if_pos h5] at hchead
                exact cleanAfter_spec hchead w hw
              · exact classify_clean false false rest htail v hv2
            · rw [if_neg h5] at hv
              have hfv : markerFreeVals c = true := by
                rw [lineClean, if_pos h2, if_neg h3, if_neg h4, if_neg h5] at hchead
                exact hchead
              by_cases h6 : st = true
              · rw [if_pos h6] at hv
                rw [textValuesList] at hv
                rcases List.mem_append.mp hv with hv2 | hv2
                · by_cases h7 : (jsTrim (getText c) == "") = true
                  · rw [if_pos h7] at hv2
                    cases c with
                    | text w => exact Bool.noConfusion h2
                    | element t3 cl3 cn3 =>
                      rw [show textValues (setNbspChildren (addClass "spotlight"
                            (Node.element t3 cl3 cn3))) = ["\u00A0"] from rfl] at hv2
                      rw [List.mem_singleton] at hv2
                      subst hv2
                      exact ⟨rfl, rfl⟩
                  · rw [if_neg h7, textValues_addClass] at hv2
                    exact markerFreeVals_spec hfv v hv2
                · exact classify_clean st false rest htail v hv2
              · rw [if_neg h6] at hv
                rw [textValuesList] at hv
                rcases List.mem_append.mp hv with hv2 | hv2
                · rw [textValues_addClass] at hv2
                  exact markerFreeVals_spec hfv v hv2
                · exact classify_clean st false rest htail v hv2
      · rw [if_neg h2] at hv
        rw [textValuesList] at hv
        rcases List.mem_append.mp hv with hv2 | hv2
        · have hfv : markerFreeVals c = true := by
            rw [lineClean, if_neg h2] at hchead
            exact hchead
          exact markerFreeVals_spec hfv v hv2
        · exact classify_clean st false rest htail v hv2

/-- C2 (amended): after the transform runs on a code block, no text value
reachable in the output contains either marker substring, provided every child
is clean in the following sense: marker-only lines are unrestricted (they are
removed whole); a marker-inline line's text values must each be marker-free once
its branch's single first-occurrence stripping is applied (this excludes a value
holding two marker occurrences, a marker split across values, and a stripping
that splices a new occurrence together — the cases on which the original
unconditional claim fails); and all other children must carry no marker in any
text value. -/
theorem marker_removal_clean (cls : List String) (cs : List Node)
    (hclean : ∀ c ∈ cs, lineClean c = true) :
    ∀ v ∈ textValues (annotateCode (Node.element "code" cls cs)),
      containsSub v startMarker = false ∧ containsSub v endMarker = false := by
  intro v hv
  rw [annotateCode] at hv
  have hsub := removeTrailingBlank_sublist cs
  by_cases hmk : hasMarkerList (cs.filter isLineSpan) = true
  · rw [if_pos hmk, textValues] at hv
    exact classify_clean false false (removeTrailingBlank cs)
      (fun c hc => hclean c (hsub.subset hc)) v hv
  · rw [if_neg hmk, textValues] at hv
    obtain ⟨c, hc, hvc⟩ := mem_textValuesList.mp hv
    have hc' : c ∈ cs := hsub.subset hc
    by_cases h2 : isLineSpan c = true
    · have hmc : hasMarker c = false := by
        rw [Bool.eq_false_iff]
        intro hm
        exact hmk (hasMarkerList_exists.mpr ⟨c, List.mem_filter.mpr ⟨hc', h2⟩, hm⟩)
      rw [hasMarker_values, List.any_eq_false] at hmc
      have hnv := hmc v hvc
      rw [Bool.or_eq_true] at hnv
      exact ⟨Bool.eq_false_iff.mpr (fun h => hnv (Or.inl h)),
        Bool.eq_false_iff.mpr (fun h => hnv (Or.inr h))⟩
    · have hcl := hclean c hc'
      rw [lineClean, if_neg h2] at hcl
      exact markerFreeVals_spec hcl v hvc

/-- C2 witness: on a concrete clean block the surviving value `"k"` is
marker-free. -/
theorem marker_removal_clean_witness :
    containsSub "k" startMarker = false ∧ containsSub "k" endMarker = false :=
  marker_removal_clean [] [mkLine "k", nlSep, mkLine "// spotlight-start", nlSep, mkLine "m"]
    (by decide) "k" (by decide)
